import Mathlib

/-!
# ShinkanRebirth: feed store, checker and notification dispatcher

A shallow embedding of `internal/models`, `internal/storage`, `internal/notifier`
and `internal/checker`, followed by the properties established about them.

Modelling conventions.

* Go `string` is `String`; `*string` is `Option String` (`nil` is `none`).
* Go `int` is `Int`. The fail count of a feed comes from the data file and may
  hold any 64-bit value, so `CheckFeed` adds to it with the wrap-around of Go's
  `int` (`wrapInt64`); the counters of `Stats` and of `ImportFeeds` start at
  zero in the process and are raised by one at a time, far from the bound.
* The field `Type` of `models.Feed` is spelled `Type_`, `Type` being reserved.
* The two JSON data files are represented by the feed lists they hold
  (`encoding/json` round-trips every `models.Feed`), and file I/O is assumed
  to succeed.
* Everything outside the process (the RSS parser, the wall clock, the two
  notification channels, the case table of package `unicode` beyond ASCII) is
  supplied by an `Oracle`; the `World` counts how often each has been
  consulted and logs what was sent.
-/

set_option autoImplicit false

namespace Shinkan

/-! ## internal/models/models.go -/

/-- The Go type `models.FeedType`, a named string type. -/
abbrev FeedType := String

/-- The constant `models.FeedTypeManga`. -/
def FeedTypeManga : FeedType := "manga"

/-- The constant `models.FeedTypeAnime`. -/
def FeedTypeAnime : FeedType := "anime"

/-- The struct `models.Feed`. -/
structure Feed where
  ID : String
  Name : String
  RSSUrl : String
  Type_ : FeedType
  AnilistUrl : Option String
  Category : String
  LastChecked : Option String
  LastChapter : Option String
  LastError : Option String
  FailCount : Int
  AddedAt : String
  SearchText : Option String
  Cover : Option String
  deriving DecidableEq, Repr

/-- The struct `models.GotifyMessage`; `Extras` is the same constant map in
every message the notifier builds and is not represented. -/
structure GotifyMessage where
  Title : String
  Message : String
  Priority : Int
  deriving DecidableEq, Repr

/-- The fields of `gofeed.Item` that the checker reads. -/
structure Item where
  Title : String
  Link : String
  PublishedParsed : Option Int
  deriving DecidableEq, Repr

/-! ## Dynamic values and update maps -/

/-- A Go `interface{}` value, by dynamic type. `other` stands for every
dynamic type that is neither `string`, `int` nor `bool` (for instance the
`*string` that `Server.updateFeed` stores under `"searchText"`). -/
inductive Value where
  | string (s : String)
  | int (n : Int)
  | bool (b : Bool)
  | nil
  | other
  deriving DecidableEq, Repr

/-- A Go `map[string]interface{}`, as an association list read by first match. -/
abbrev Updates := List (String × Value)

/-- Go map indexing `updates[key]`: an absent key yields the zero value of
`interface{}`, which is the nil interface. -/
def Updates.index (updates : Updates) (key : String) : Value :=
  match List.lookup key updates with
  | some v => v
  | none => Value.nil

/-- The type assertion `v.(string)` in its comma-ok form. -/
def Value.asString : Value → Option String
  | Value.string s => some s
  | _ => none

/-- The type assertion `v.(int)` in its comma-ok form. -/
def Value.asInt : Value → Option Int
  | Value.int n => some n
  | _ => none

/-- The comparison `v == nil` on an interface value. -/
def Value.isNil : Value → Bool
  | Value.nil => true
  | _ => false

/-! ## internal/storage/storage.go -/

/-- The contents of the two data files of a `storage.Storage`. -/
structure Storage where
  mangaFile : List Feed
  animeFile : List Feed
  deriving DecidableEq, Repr

/-- Method `Storage.read`: the manga file followed by the anime file. -/
def Storage.read (s : Storage) : List Feed :=
  s.mangaFile ++ s.animeFile

/-- Method `Storage.write`: split the feeds by type and replace both files. -/
def Storage.write (feeds : List Feed) : Storage :=
  { mangaFile := feeds.filter (fun feed => !(feed.Type_ == FeedTypeAnime))
    animeFile := feeds.filter (fun feed => feed.Type_ == FeedTypeAnime) }

/-- Method `Storage.GetFeeds`: all feeds of both files. -/
def Storage.GetFeeds (s : Storage) : List Feed :=
  s.read

/-- The body of the `if feed.ID == id` block of `Storage.UpdateFeed`
(storage.go lines 188-220), statement by statement. -/
def Storage.UpdateFeed.apply (updates : Updates) (feed : Feed) : Feed :=
  let feed := match (updates.index "name").asString with
    | some name => { feed with Name := name }
    | none => feed
  let feed := match (updates.index "rssUrl").asString with
    | some rssUrl => { feed with RSSUrl := rssUrl }
    | none => feed
  let feed := match (updates.index "anilistUrl").asString with
    | some anilistUrl => { feed with AnilistUrl := some anilistUrl }
    | none => feed
  let feed := match (updates.index "category").asString with
    | some category => { feed with Category := category }
    | none => feed
  let feed := match (updates.index "type").asString with
    | some feedType => { feed with Type_ := feedType }
    | none => feed
  let feed := match (updates.index "searchText").asString with
    | some searchText => { feed with SearchText := some searchText }
    | none => feed
  let feed := match (updates.index "lastChecked").asString with
    | some lastChecked => { feed with LastChecked := some lastChecked }
    | none => feed
  let feed := match (updates.index "lastChapter").asString with
    | some lastChapter => { feed with LastChapter := some lastChapter }
    | none => feed
  let feed := match (updates.index "lastError").asString with
    | some lastError => { feed with LastError := some lastError }
    | none => feed
  let feed := if (updates.index "lastError").isNil then { feed with LastError := none } else feed
  let feed := match (updates.index "failCount").asInt with
    | some failCount => { feed with FailCount := failCount }
    | none => feed
  feed

/-- The `for i, feed := range data.Feeds` loop of `Storage.UpdateFeed`: the
first feed with the given id is updated in place and the loop breaks. The
result is `updatedFeed` (`none` for the nil pointer) and the new `data.Feeds`. -/
def Storage.UpdateFeed.loop (id : String) (updates : Updates) :
    List Feed → Option Feed × List Feed
  | [] => (none, [])
  | feed :: rest =>
    if feed.ID = id then
      (some (Storage.UpdateFeed.apply updates feed), Storage.UpdateFeed.apply updates feed :: rest)
    else
      ((Storage.UpdateFeed.loop id updates rest).1, feed :: (Storage.UpdateFeed.loop id updates rest).2)

/-- Method `Storage.UpdateFeed`: the error `feed not found` and an untouched store
when no feed has the id, otherwise the updated feed and the rewritten files. -/
def Storage.UpdateFeed (s : Storage) (id : String) (updates : Updates) :
    Except String Feed × Storage :=
  match Storage.UpdateFeed.loop id updates s.read with
  | (none, _) => (Except.error "feed not found", s)
  | (some updatedFeed, feeds) => (Except.ok updatedFeed, Storage.write feeds)

/-! ## The outside world -/

/-- What the process obtains from outside. Every external call is answered
as a function of how many calls of that kind were made before it, so that
successive calls may be answered differently. -/
structure Oracle where
  /-- The answer of `gofeed.Parser.ParseURL` to the k-th fetch: the items in
  returned order, or the error message. -/
  parseURL : Nat → String → Except String (List Item)
  /-- The k-th reading of `time.Now()`, as `UnixNano`. -/
  now : Nat → Int
  /-- The method `Time.Format(time.RFC3339)`, on a reading of the clock. -/
  formatRFC3339 : Int → String
  /-- The lower-case mapping of package `unicode` for the runes beyond ASCII
  (`unicode.To(unicode.LowerCase, r)`, a table of the Go library). -/
  unicodeLower : Char → Char
  /-- The error of the k-th channel send when it goes to Gotify (`none`: sent). -/
  gotify : Nat → Option String
  /-- The error of the k-th channel send when it goes to Discord (`none`: sent). -/
  discord : Nat → Option String

/-- The sum of Go `int` values as the machine yields it: the 64-bit two's
complement value that is congruent to `n` modulo `2 ^ 64`. -/
def wrapInt64 (n : Int) : Int :=
  (n + 9223372036854775808) % 18446744073709551616 - 9223372036854775808

/-- The library function `unicode.ToLower`: on ASCII the letters `A` to `Z` are
moved up by `'a' - 'A'` and nothing else changes; beyond ASCII the case table
decides. -/
def unicodeToLower (o : Oracle) (r : Char) : Char :=
  if r.toNat ≤ 127 then
    if 'A' ≤ r ∧ r ≤ 'Z' then Char.ofNat (r.toNat + 32) else r
  else o.unicodeLower r

/-- The library function `strings.ToLower`: on a well-formed string it is
`strings.Map(unicode.ToLower, s)`, rune by rune. -/
def stringsToLower (o : Oracle) (s : String) : String :=
  String.mk (s.toList.map (unicodeToLower o))

/-- The call `fmt.Sprintf("%d", n)`: the decimal numeral of `n`. -/
def sprintfD (n : Int) : String :=
  toString n

/-- The record `Storage.ImportFeeds` appends for a candidate it does not skip
(storage.go lines 331-340), statement by statement; `imported` and `clock`
are the running count and the number of clock readings at that point. -/
def Storage.ImportFeeds.fresh (o : Oracle) (feed : Feed) (imported : Int) (clock : Nat) : Feed :=
  let feed := { feed with ID := sprintfD (o.now clock) ++ sprintfD imported }
  let feed := { feed with AddedAt := o.formatRFC3339 (o.now (clock + 1)) }
  let feed := { feed with FailCount := 0 }
  let feed := { feed with LastChecked := none }
  let feed := { feed with LastChapter := none }
  let feed := { feed with LastError := none }
  let feed := if feed.Category = "" then { feed with Category := "Uncategorized" } else feed
  feed

/-- The `for _, feed := range feeds` loop of `Storage.ImportFeeds`. `existingUrls`
is the key set of the map built before the loop; `clock` counts the readings
of `time.Now()`. -/
def Storage.ImportFeeds.loop (o : Oracle) (existingUrls : List String) :
    List Feed → List Feed → Int → Int → Nat → List Feed × Int × Int × Nat
  | [], data, imported, skipped, clock => (data, imported, skipped, clock)
  | feed :: rest, data, imported, skipped, clock =>
    if feed.RSSUrl ∈ existingUrls then
      Storage.ImportFeeds.loop o existingUrls rest data imported (skipped + 1) clock
    else
      Storage.ImportFeeds.loop o existingUrls rest
        (data ++ [Storage.ImportFeeds.fresh o feed imported clock]) (imported + 1) skipped (clock + 2)

/-- Method `Storage.ImportFeeds`: the pair `(imported, skipped)`, the rewritten files
and the advanced clock counter. -/
def Storage.ImportFeeds (o : Oracle) (s : Storage) (clock : Nat) (feeds : List Feed) :
    (Int × Int) × Storage × Nat :=
  let existingUrls := s.read.map (fun feed => feed.RSSUrl)
  match Storage.ImportFeeds.loop o existingUrls feeds s.read 0 0 clock with
  | (data, imported, skipped, clock1) => ((imported, skipped), Storage.write data, clock1)

/-- Method `Storage.AddFeed`: the stored feed, the rewritten files and the
advanced clock counter. -/
def Storage.AddFeed (o : Oracle) (s : Storage) (clock : Nat) (feed : Feed) :
    Feed × Storage × Nat :=
  let data := s.read
  let feed := { feed with ID := sprintfD (o.now clock) }
  let feed := { feed with AddedAt := o.formatRFC3339 (o.now (clock + 1)) }
  let feed := { feed with FailCount := 0 }
  let feed := if feed.Category = "" then { feed with Category := "Uncategorized" } else feed
  let data := data ++ [feed]
  (feed, Storage.write data, clock + 2)

/-- Method `Storage.DeleteFeed`: keep the feeds with another id. -/
def Storage.DeleteFeed (s : Storage) (id : String) : Storage :=
  Storage.write (s.read.filter (fun feed => feed.ID != id))

/-- The first loop of `Storage.GetCategories`: the key set of `categoryMap`,
kept in order of first insertion. -/
def Storage.GetCategories.categoryMap : List Feed → List String → List String
  | [], keys => keys
  | feed :: rest, keys =>
    let category := if feed.Category = "" then "Uncategorized" else feed.Category
    Storage.GetCategories.categoryMap rest (if category ∈ keys then keys else keys ++ [category])

/-- Method `Storage.GetCategories`. Go leaves the iteration order of a map
unspecified; `order` is the order in which `range categoryMap` delivers the
keys. -/
def Storage.GetCategories (order : List String → List String) (s : Storage) : List String :=
  order (Storage.GetCategories.categoryMap s.read [])

/-- The bytes of a Go string: the UTF-8 encoding of its characters. -/
def utf8Bytes (s : String) : List UInt8 :=
  s.toList.flatMap String.utf8EncodeChar

/-- The `for i, r := range s` loop of `toLower` in storage.go: `i` is the byte
offset of the rune `r`, and `result[i]` receives the rune, with `A` to `Z`
moved up by 32. -/
def toLower.loop : List Char → Nat → List Char → List Char
  | [], _, result => result
  | r :: rest, i, result =>
    toLower.loop rest (i + r.utf8Size)
      (result.set i (if 'A' ≤ r ∧ r ≤ 'Z' then Char.ofNat (r.toNat + 32) else r))

/-- The function `toLower` of storage.go: `result` is made with `len(s)` zero
runes, one per byte of `s`, filled by the loop and converted to a string. -/
def toLower (s : String) : String :=
  String.mk (toLower.loop s.toList 0 (List.replicate (utf8Bytes s).length (Char.ofNat 0)))

/-- The loop `for i := 0; i <= len(sLower)-len(substrLower); i++` of
`findSubstring`, on the bytes of the two strings; the first argument is the
number of iterations the loop condition still admits. -/
def findSubstring.loop (sLower substrLower : List UInt8) : Nat → Nat → Bool
  | 0, _ => false
  | k + 1, i =>
    if (sLower.drop i).take substrLower.length = substrLower then true
    else findSubstring.loop sLower substrLower k (i + 1)

/-- The function `findSubstring` of storage.go. -/
def findSubstring (s substr : String) : Bool :=
  let sLower := utf8Bytes (toLower s)
  let substrLower := utf8Bytes (toLower substr)
  findSubstring.loop sLower substrLower (sLower.length + 1 - substrLower.length) 0

/-- The function `contains` of storage.go. -/
def contains (s substr : String) : Bool :=
  decide ((utf8Bytes s).length > 0) && decide ((utf8Bytes substr).length > 0) &&
    (decide (s = substr) || findSubstring s substr)

/-- Method `Storage.SearchFeeds`. -/
def Storage.SearchFeeds (s : Storage) (query : String) : List Feed :=
  s.read.filter (fun feed =>
    contains feed.Name query ||
    contains feed.RSSUrl query ||
    (match feed.LastChapter with
     | some lastChapter => contains lastChapter query
     | none => false))

/-! ## internal/notifier/notifier.go -/

/-- The fields of `notifier.Notifier` that decide where a message goes;
`discordSession` tells whether the session pointer is non-nil. -/
structure Notifier where
  gotifyServer : String
  gotifyToken : String
  discordSession : Bool
  discordChannelID : String
  deriving DecidableEq, Repr

/-- One attempted send on a channel, with the arguments of the call. -/
inductive ChannelSend where
  | gotify (msg : GotifyMessage)
  | discord (title feedName chapter link : String) (anilistUrl : Option String) (color : Int)
  deriving DecidableEq, Repr

/-- One call made to the dispatcher. -/
inductive Call where
  | notification (feedName chapter link feedType : String) (anilistUrl : Option String)
  | test (feedName chapter link feedType : String) (anilistUrl : Option String)
  deriving DecidableEq, Repr

/-- The struct `checker.Stats`. -/
structure Stats where
  TotalChecks : Int
  SuccessfulChecks : Int
  FailedChecks : Int
  NotificationsSent : Int
  LastCheckTime : Option String
  deriving DecidableEq, Repr

/-- The state the checker works on: the store, its statistics, and the record
of its dealings with the outside (`calls`, `sent` and `sleeps` are logs kept
for stating properties; the Go code has no such fields). -/
structure World where
  storage : Storage
  stats : Stats
  /-- Number of `ParseURL` calls made so far. -/
  fetches : Nat
  /-- Number of `time.Now()` readings made so far. -/
  clock : Nat
  /-- Dispatcher calls, oldest first. -/
  calls : List Call
  /-- Channel sends attempted, oldest first. -/
  sent : List ChannelSend
  /-- Durations passed to `time.Sleep`, in nanoseconds, oldest first. -/
  sleeps : List Int
  deriving DecidableEq, Repr

/-- Method `Notifier.sendToGotify`: one send attempted on Gotify; its error, if any,
is the outside's answer. -/
def Notifier.sendToGotify (o : Oracle) (msg : GotifyMessage) (w : World) : Option String × World :=
  (o.gotify w.sent.length, { w with sent := w.sent ++ [ChannelSend.gotify msg] })

/-- Method `Notifier.sendToDiscord`: one send attempted on Discord. -/
def Notifier.sendToDiscord (o : Oracle) (title feedName chapter link : String)
    (anilistUrl : Option String) (color : Int) (w : World) : Option String × World :=
  (o.discord w.sent.length,
    { w with sent := w.sent ++ [ChannelSend.discord title feedName chapter link anilistUrl color] })

/-- Method `Notifier.SendNotification`: the returned error (`none` for nil) and the
world after the sends. A channel error is logged and dropped. -/
def Notifier.SendNotification (n : Notifier) (o : Oracle) (feedName chapter link feedType : String)
    (anilistUrl : Option String) (w : World) : Option String × World :=
  let w := { w with calls := w.calls ++ [Call.notification feedName chapter link feedType anilistUrl] }
  let title := if feedType = FeedTypeAnime then "🎬 New Anime Episode!" else "📖 New Manga Chapter!"
  let message := "**" ++ feedName ++ "**\n" ++ chapter
  let priority : Int := if feedType = FeedTypeAnime then 7 else 5
  let color : Int := if feedType = FeedTypeAnime then 0x89b4fa else 0xa6e3a1
  let message := match anilistUrl with
    | some url => if url ≠ "" then message ++ "\n\n📺 AniList: " ++ url else message
    | none => message
  let message := message ++ "\n\n🔗 Link: " ++ link
  -- Send to Gotify if configured
  let w :=
    if n.gotifyServer ≠ "" ∧ n.gotifyToken ≠ "" then
      (Notifier.sendToGotify o { Title := title, Message := message, Priority := priority } w).2
    else w
  -- Send to Discord if configured
  let w :=
    if n.discordSession = true ∧ n.discordChannelID ≠ "" then
      (Notifier.sendToDiscord o title feedName chapter link anilistUrl color w).2
    else w
  (none, w)

/-- Method `Notifier.SendTestNotification`: as `SendNotification`, with the test
titles and Gotify priority 3. -/
def Notifier.SendTestNotification (n : Notifier) (o : Oracle) (feedName chapter link feedType : String)
    (anilistUrl : Option String) (w : World) : Option String × World :=
  let w := { w with calls := w.calls ++ [Call.test feedName chapter link feedType anilistUrl] }
  let title := if feedType = FeedTypeAnime then "🧪 TEST: Anime Notification"
    else "🧪 TEST: Manga Notification"
  let color : Int := if feedType = FeedTypeAnime then 0x89b4fa else 0xa6e3a1
  let message := "**" ++ feedName ++ "**\n" ++ chapter
  let message := match anilistUrl with
    | some url => if url ≠ "" then message ++ "\n\n📺 AniList: " ++ url else message
    | none => message
  let message := message ++ "\n\n🔗 Link: " ++ link
  -- Send to Gotify if configured
  let w :=
    if n.gotifyServer ≠ "" ∧ n.gotifyToken ≠ "" then
      (Notifier.sendToGotify o { Title := title, Message := message, Priority := 3 } w).2
    else w
  -- Send to Discord if configured
  let w :=
    if n.discordSession = true ∧ n.discordChannelID ≠ "" then
      (Notifier.sendToDiscord o title feedName chapter link anilistUrl color w).2
    else w
  (none, w)

/-! ## internal/checker/checker.go -/

/-- Substring test on lists of characters, as `strings.Contains` (the empty
list is contained in every list). -/
def containsChars : List Char → List Char → Bool
  | [], substr => substr.isEmpty
  | c :: cs, substr => substr.isPrefixOf (c :: cs) || containsChars cs substr

/-- The library function `strings.Contains(s, substr)`. Go compares bytes;
on well-formed UTF-8, which is all a `String` holds, a byte match starts and
ends on character boundaries, so this is a match of characters. -/
def stringsContains (s substr : String) : Bool :=
  containsChars s.toList substr.toList

/-- The test of the filter loop of `checkFeedOnce` and `TestFeed`:
`strings.Contains(strings.ToLower(item.Title), searchText)` where
`searchText` is `strings.ToLower(*feed.SearchText)`. -/
def titleMatches (o : Oracle) (filter : String) (item : Item) : Bool :=
  stringsContains (stringsToLower o item.Title) (stringsToLower o filter)

/-- The item selection of `Checker.checkFeedOnce` (checker.go lines 104-130)
on the non-empty item list `first :: rest`; `none` is the nil `latestItem`
left by a filter that matched nothing. -/
def checkFeedOnce.latestItem (o : Oracle) (feed : Feed) (first : Item) (rest : List Item) :
    Option Item :=
  if feed.Type_ = FeedTypeAnime ∧ feed.SearchText ≠ none ∧ feed.SearchText ≠ some "" then
    (first :: rest).find? (fun item => titleMatches o (feed.SearchText.getD "") item)
  else
    some first

/-- The item selection of `Checker.TestFeed` (checker.go lines 227-246). -/
def TestFeed.latestItem (o : Oracle) (feed : Feed) (first : Item) (rest : List Item) :
    Option Item :=
  if feed.Type_ = FeedTypeAnime ∧ feed.SearchText ≠ none ∧ feed.SearchText ≠ some "" then
    (first :: rest).find? (fun item => titleMatches o (feed.SearchText.getD "") item)
  else
    some first

/-- Method `Checker.checkFeedOnce`: one fetch-and-compare attempt. The result is the
returned error (`none` for nil) and the world afterwards. The call on line
145 passes `feed.Cover` as a sixth argument, which `SendNotification` as
declared in notifier.go does not take; it is left out. -/
def checkFeedOnce (o : Oracle) (n : Notifier) (feed : Feed) (w : World) : Option String × World :=
  let fetched := o.parseURL w.fetches feed.RSSUrl
  let w := { w with fetches := w.fetches + 1 }
  match fetched with
  | Except.error err => (some ("failed to parse RSS: " ++ err), w)
  | Except.ok [] => (some "no items found in RSS feed", w)
  | Except.ok (first :: rest) =>
    match checkFeedOnce.latestItem o feed first rest with
    | none =>
      -- Update last checked time even if no match found
      let lastChecked := o.formatRFC3339 (o.now w.clock)
      let w := { w with clock := w.clock + 1 }
      let w := { w with storage := (w.storage.UpdateFeed feed.ID
        [("lastChecked", Value.string lastChecked), ("lastError", Value.nil),
         ("failCount", Value.int 0)]).2 }
      (none, w)
    | some latestItem =>
      let latestChapter := latestItem.Title
      let link := latestItem.Link
      let w :=
        match feed.LastChapter with
        | none => w
        | some lastChapter =>
          if lastChapter ≠ latestChapter then
            -- Send notification
            match n.SendNotification o feed.Name latestChapter link feed.Type_ feed.AnilistUrl w with
            | (some _, w1) => w1
            | (none, w1) =>
              { w1 with stats := { w1.stats with NotificationsSent := w1.stats.NotificationsSent + 1 } }
          else w
      -- Update feed
      let lastChecked := o.formatRFC3339 (o.now w.clock)
      let w := { w with clock := w.clock + 1 }
      let w := { w with storage := (w.storage.UpdateFeed feed.ID
        [("lastChecked", Value.string lastChecked), ("lastChapter", Value.string latestChapter),
         ("lastError", Value.nil), ("failCount", Value.int 0)]).2 }
      (none, w)

/-- How the retry loop of `Checker.CheckFeed` is left: by the `return nil`
inside it, or by running out, with the value of `lastErr` (`none` for nil). -/
inductive LoopExit where
  | returned
  | exhausted (lastErr : Option String)
  deriving DecidableEq, Repr

/-- The loop `for attempt := 1; attempt <= retries; attempt++` of
`Checker.CheckFeed`. The first argument is the number of iterations the loop
condition still admits, `retries - attempt + 1` cut off at zero. -/
def CheckFeed.loop (o : Oracle) (n : Notifier) (feed : Feed) (retries : Int) :
    Nat → Int → Option String → World → LoopExit × World
  | 0, _, lastErr, w => (LoopExit.exhausted lastErr, w)
  | k + 1, attempt, _, w =>
    match checkFeedOnce o n feed w with
    | (none, w1) =>
      (LoopExit.returned,
        { w1 with stats := { w1.stats with SuccessfulChecks := w1.stats.SuccessfulChecks + 1 } })
    | (some err, w1) =>
      let w2 :=
        if attempt < retries then { w1 with sleeps := w1.sleeps ++ [attempt * 1000000000] }
        else w1
      CheckFeed.loop o n feed retries k (attempt + 1) (some err) w2

/-- What a call of `Checker.CheckFeed` comes to: `nil`, an error, or the
run-time failure of calling `Error()` on a nil `lastErr`. -/
inductive CheckResult where
  | ok
  | error (msg : String)
  | nilDereference
  deriving DecidableEq, Repr

/-- Method `Checker.CheckFeed`: the retry loop around `checkFeedOnce`, with the
bookkeeping before and after it. -/
def CheckFeed (o : Oracle) (n : Notifier) (feed : Feed) (retries : Int) (w : World) :
    CheckResult × World :=
  let w := { w with stats := { w.stats with TotalChecks := w.stats.TotalChecks + 1 } }
  match CheckFeed.loop o n feed retries retries.toNat 1 none w with
  | (LoopExit.returned, w) => (CheckResult.ok, w)
  | (LoopExit.exhausted lastErr, w) =>
    let w := { w with stats := { w.stats with FailedChecks := w.stats.FailedChecks + 1 } }
    -- Update feed with error
    let failCount := wrapInt64 (feed.FailCount + 1)
    let lastChecked := o.formatRFC3339 (o.now w.clock)
    let w := { w with clock := w.clock + 1 }
    match lastErr with
    | none => (CheckResult.nilDereference, w)
    | some errorMsg =>
      let w := { w with storage := (w.storage.UpdateFeed feed.ID
        [("lastChecked", Value.string lastChecked), ("lastError", Value.string errorMsg),
         ("failCount", Value.int failCount)]).2 }
      (CheckResult.error errorMsg, w)

/-- What `Checker.TestFeed` returns: an error, or a result map. -/
abbrev TestResult := Except String (List (String × Value))

/-- Method `Checker.TestFeed`: look the feed up, fetch, select, send a test
notification; nothing is written to the store or the statistics. -/
def TestFeed (o : Oracle) (n : Notifier) (feedID : String) (w : World) : TestResult × World :=
  match w.storage.GetFeeds.find? (fun f => f.ID == feedID) with
  | none => (Except.error "feed not found", w)
  | some feed =>
    let fetched := o.parseURL w.fetches feed.RSSUrl
    let w := { w with fetches := w.fetches + 1 }
    match fetched with
    | Except.error err => (Except.error ("failed to parse RSS: " ++ err), w)
    | Except.ok [] => (Except.ok [("error", Value.string "No items found in RSS feed")], w)
    | Except.ok (first :: rest) =>
      match TestFeed.latestItem o feed first rest with
      | none =>
        (Except.ok [("error", Value.string
          ("No matching items found for search: " ++ feed.SearchText.getD ""))], w)
      | some latestItem =>
        -- Send test notification
        match n.SendTestNotification o feed.Name latestItem.Title latestItem.Link feed.Type_
            feed.AnilistUrl w with
        | (some err, w) => (Except.error ("failed to send test notification: " ++ err), w)
        | (none, w) =>
          let result := [("title", Value.string latestItem.Title),
            ("link", Value.string latestItem.Link), ("sent", Value.bool true)]
          let result := match latestItem.PublishedParsed with
            | some t => result ++ [("date", Value.string (o.formatRFC3339 t))]
            | none => result
          (Except.ok result, w)

/-- The `for _, feed := range feeds` loop of `Checker.CheckAll`. The flag tells
whether the loop was cut short by a run-time failure of `CheckFeed`. -/
def CheckAll.loop (o : Oracle) (n : Notifier) : List Feed → World → Bool × World
  | [], w => (false, w)
  | feed :: rest, w =>
    match CheckFeed o n feed 3 w with
    | (CheckResult.nilDereference, w1) => (true, w1)
    | (_, w1) =>
      -- Small delay between checks
      CheckAll.loop o n rest { w1 with sleeps := w1.sleeps ++ [500 * 1000000] }

/-- Method `Checker.CheckAll`. The clock is read once for the log line that
opens the batch and once for `lastCheckTime`. -/
def CheckAll (o : Oracle) (n : Notifier) (w : World) : Bool × World :=
  let feeds := w.storage.GetFeeds
  let w := { w with clock := w.clock + 1 }
  let lastCheckTime := o.formatRFC3339 (o.now w.clock)
  let w := { w with clock := w.clock + 1 }
  let w := { w with stats := { w.stats with LastCheckTime := some lastCheckTime } }
  CheckAll.loop o n feeds w

/-! ## Sequences of store operations -/

/-- A call that adds records to the store. -/
inductive StoreOp where
  | add (feed : Feed)
  | importFeeds (feeds : List Feed)
  deriving DecidableEq, Repr

/-- The store and the clock counter after one call. -/
def StoreOp.run (o : Oracle) (s : Storage) (clock : Nat) : StoreOp → Storage × Nat
  | StoreOp.add feed => (s.AddFeed o clock feed).2
  | StoreOp.importFeeds feeds => (Storage.ImportFeeds o s clock feeds).2

/-- The store and the clock counter after a sequence of calls, made one after
the other. -/
def runOps (o : Oracle) : List StoreOp → Storage → Nat → Storage × Nat
  | [], s, clock => (s, clock)
  | op :: ops, s, clock => runOps o ops (op.run o s clock).1 (op.run o s clock).2

/-- Every call of the sequence starts at a clock reading later than all the
readings made before it. -/
def ClockAdvances (o : Oracle) : List StoreOp → Storage → Nat → Prop
  | [], _, _ => True
  | op :: ops, s, clock =>
    (∀ j, j < clock → o.now j < o.now clock) ∧
    ClockAdvances o ops (op.run o s clock).1 (op.run o s clock).2

/-- The id carries the clock reading `t`: it is the decimal numeral of `t`, as
`AddFeed` assigns it, or that numeral followed by the numeral of a count, as
`ImportFeeds` assigns it. -/
def StampedAt (t : Int) (id : String) : Prop :=
  id = sprintfD t ∨ ∃ i : Int, id = sprintfD t ++ sprintfD i

/-! ## Interleaving of two updates

`readFromFile` and `writeToFile` take the store's mutex for the duration of
one file operation (storage.go lines 58-59 and 75-76); `UpdateFeed` takes no
lock of its own. Between two file operations of one call, another call may
therefore run. -/

/-- How far a call of `UpdateFeed` has come, with what it holds in memory:
nothing yet, the manga file, both files combined, or the anime feeds it still
has to write. -/
inductive UpdateProgress where
  | start
  | readManga (manga : List Feed)
  | readBoth (data : List Feed)
  | wroteManga (anime : List Feed)
  | done
  deriving DecidableEq, Repr

/-- One file operation of a call `UpdateFeed(id, updates)`, with the work in
memory that follows it: read the manga file; read the anime file and combine;
apply the updates and write the manga file; write the anime file. A call that
does not find the id returns without writing. -/
def UpdateFeed.step (id : String) (updates : Updates) :
    UpdateProgress → Storage → UpdateProgress × Storage
  | UpdateProgress.start, s => (UpdateProgress.readManga s.mangaFile, s)
  | UpdateProgress.readManga manga, s => (UpdateProgress.readBoth (manga ++ s.animeFile), s)
  | UpdateProgress.readBoth data, s =>
    match Storage.UpdateFeed.loop id updates data with
    | (none, _) => (UpdateProgress.done, s)
    | (some _, feeds) =>
      (UpdateProgress.wroteManga (Storage.write feeds).animeFile,
        { s with mangaFile := (Storage.write feeds).mangaFile })
  | UpdateProgress.wroteManga anime, s => (UpdateProgress.done, { s with animeFile := anime })
  | UpdateProgress.done, s => (UpdateProgress.done, s)

/-- Two calls of `UpdateFeed` running side by side: each entry of the schedule
lets the first (`true`) or the second (`false`) call do its next file
operation. -/
def runTwoUpdates (id1 : String) (updates1 : Updates) (id2 : String) (updates2 : Updates) :
    List Bool → UpdateProgress × UpdateProgress × Storage → UpdateProgress × UpdateProgress × Storage
  | [], st => st
  | true :: schedule, (p1, p2, s) =>
    runTwoUpdates id1 updates1 id2 updates2 schedule
      ((UpdateFeed.step id1 updates1 p1 s).1, p2, (UpdateFeed.step id1 updates1 p1 s).2)
  | false :: schedule, (p1, p2, s) =>
    runTwoUpdates id1 updates1 id2 updates2 schedule
      (p1, (UpdateFeed.step id2 updates2 p2 s).1, (UpdateFeed.step id2 updates2 p2 s).2)

/-- Lower-casing of one rune as `toLower` of storage.go does it: `A` to `Z` are
moved up by 32, every other rune is left as it is. -/
def asciiLower (r : Char) : Char :=
  if 'A' ≤ r ∧ r ≤ 'Z' then Char.ofNat (r.toNat + 32) else r

/-- All characters of the string are ASCII. -/
def IsASCII (s : String) : Prop :=
  ∀ c ∈ s.toList, c.toNat ≤ 127

/-- The string `s` contains `q` when the case of letters is ignored: some run
of consecutive characters of `s` equals `q` once both are lower-cased
character by character. -/
def ContainsIgnoringCase (lower : Char → Char) (s q : String) : Prop :=
  ∃ u : List Char, u <:+: s.toList ∧ u.map lower = q.toList.map lower

/-- Same fields but for the id and the time of creation. -/
def sameButStamp (submitted stored : Feed) : Prop :=
  { stored with ID := submitted.ID, AddedAt := submitted.AddedAt } = submitted

instance (submitted stored : Feed) : Decidable (sameButStamp submitted stored) := by
  unfold sameButStamp
  infer_instance

/-- The error with which an attempt of `checkFeedOnce` ends before it selects
a candidate, read off the fetch result (checker.go lines 95-102): a fetch
error, or an empty item list. `none` when the fetch delivered items. -/
def attemptError : Except String (List Item) → Option String
  | Except.error err => some ("failed to parse RSS: " ++ err)
  | Except.ok [] => some "no items found in RSS feed"
  | Except.ok (_ :: _) => none

/-- The patch a successful attempt hands to `UpdateFeed`. -/
def successPatch (o : Oracle) (w : World) (candidate : Option Item) : Updates :=
  match candidate with
  | none =>
    [("lastChecked", Value.string (o.formatRFC3339 (o.now w.clock))), ("lastError", Value.nil),
     ("failCount", Value.int 0)]
  | some item =>
    [("lastChecked", Value.string (o.formatRFC3339 (o.now w.clock))),
     ("lastChapter", Value.string item.Title), ("lastError", Value.nil), ("failCount", Value.int 0)]

/-! ## Sample data -/

/-- A manga feed that has been checked before. -/
def sampleFeed : Feed :=
  { ID := "1", Name := "Berserk", RSSUrl := "https://example.org/berserk/rss", Type_ := FeedTypeManga,
    AnilistUrl := none, Category := "Seinen", LastChecked := some "2024-01-01T00:00:00Z",
    LastChapter := some "Chapter 1", LastError := some "boom", FailCount := 2,
    AddedAt := "2023-12-31T00:00:00Z", SearchText := none, Cover := none }

/-- An anime feed with a search filter. -/
def sampleAnime : Feed :=
  { ID := "2", Name := "Dragon Raja", RSSUrl := "https://example.org/anime/rss", Type_ := FeedTypeAnime,
    AnilistUrl := none, Category := "", LastChecked := none, LastChapter := some "Ep 4",
    LastError := none, FailCount := 0, AddedAt := "2023-12-31T00:00:00Z",
    SearchText := some "Zzz", Cover := none }

/-- A source that always delivers the single item `Chapter 2`, a clock that
reads the number of the reading, and channels that always fail. -/
def sampleOracle : Oracle :=
  { parseURL := fun _ _ => Except.ok [{ Title := "Chapter 2", Link := "https://example.org/2", PublishedParsed := none }]
    now := fun k => k
    formatRFC3339 := fun t => toString t
    unicodeLower := fun r => r
    gotify := fun _ => some "gotify returned status 500"
    discord := fun _ => some "failed to send Discord message" }

/-- A source that fails twice and then delivers the single item `Chapter 2`. -/
def flakyOracle : Oracle :=
  { sampleOracle with
    parseURL := fun k _ =>
      if k < 2 then Except.error "timeout"
      else Except.ok [{ Title := "Chapter 2", Link := "https://example.org/2", PublishedParsed := none }] }

/-- A source that answers every fetch with an empty item list. -/
def emptyOracle : Oracle :=
  { sampleOracle with parseURL := fun _ _ => Except.ok [] }

/-- A source that is never reached. -/
def downOracle : Oracle :=
  { sampleOracle with parseURL := fun k _ => Except.error ("timeout " ++ toString k) }

/-- Both channels configured. -/
def sampleNotifier : Notifier :=
  { gotifyServer := "https://gotify.example.org", gotifyToken := "t", discordSession := true,
    discordChannelID := "42" }

/-- A world whose store holds the two sample feeds. -/
def sampleWorld : World :=
  { storage := { mangaFile := [sampleFeed], animeFile := [sampleAnime] }
    stats := { TotalChecks := 0, SuccessfulChecks := 0, FailedChecks := 0, NotificationsSent := 0,
               LastCheckTime := none }
    fetches := 0, clock := 0, calls := [], sent := [], sleeps := [] }

/-- The reading `t` lies before the start of every call made from clock count
`c` on, a call starting at a reading later than all readings before it. -/
def Precedes (o : Oracle) (c : Nat) (t : Int) : Prop :=
  ∀ c', c ≤ c' → (∀ j, j < c' → o.now j < o.now c') → t < o.now c'

/-- The ids of the feeds are pairwise distinct, and each carries a reading of
the given number of digits that lies before every call made from `c` on. -/
def IdsStamped (o : Oracle) (digits : Nat) (c : Nat) (feeds : List Feed) : Prop :=
  (feeds.map (fun f => f.ID)).Nodup ∧
  ∀ f ∈ feeds, ∃ t, (sprintfD t).length = digits ∧ StampedAt t f.ID ∧ Precedes o c t

/-- A clock that reads 1, 2, 10, 11, ... -/
def skewOracle : Oracle :=
  { sampleOracle with now := fun k => if k < 2 then (k : Int) + 1 else (k : Int) + 8 }

/-- A clock of nineteen-digit readings that advances for five readings. -/
def stampOracle : Oracle :=
  { sampleOracle with now := fun k => 1700000000000000000 + ((min k 5 : Nat) : Int) }

/-- A feed whose fail count is the largest value of Go's `int`. -/
def saturatedFeed : Feed :=
  { sampleFeed with FailCount := 9223372036854775807 }

/-! ## Auxiliary lemmas -/

/-- Reading back what `write` stored yields the written feeds, up to order. -/
theorem read_write_perm (feeds : List Feed) : (Storage.write feeds).read.Perm feeds := by
  unfold Storage.write Storage.read
  exact (List.perm_append_comm).trans (List.filter_append_perm _ feeds)

/-- The update loop rewrites the first feed with the id and nothing else. -/
theorem UpdateFeed_loop_split (id : String) (updates : Updates) (pre post : List Feed) (r : Feed)
    (hpre : ∀ x ∈ pre, x.ID ≠ id) (hr : r.ID = id) :
    Storage.UpdateFeed.loop id updates (pre ++ r :: post)
      = (some (Storage.UpdateFeed.apply updates r), pre ++ Storage.UpdateFeed.apply updates r :: post) := by
  induction pre with
  | nil => simp [Storage.UpdateFeed.loop, hr]
  | cons x xs ih =>
    have hx : x.ID ≠ id := hpre x (List.mem_cons_self _ _)
    have hxs : ∀ y ∈ xs, y.ID ≠ id := fun y hy => hpre y (List.mem_cons_of_mem _ hy)
    simp [Storage.UpdateFeed.loop, hx, ih hxs]

/-- The store after `UpdateFeed` when the addressed record is known. -/
theorem UpdateFeed_split (s : Storage) (id : String) (updates : Updates) (pre post : List Feed)
    (r : Feed) (hs : s.read = pre ++ r :: post) (hpre : ∀ x ∈ pre, x.ID ≠ id) (hr : r.ID = id) :
    (s.UpdateFeed id updates).2
      = Storage.write (pre ++ Storage.UpdateFeed.apply updates r :: post) := by
  unfold Storage.UpdateFeed
  rw [hs, UpdateFeed_loop_split id updates pre post r hpre hr]

/-- Effect of the patch written after a candidate was compared. -/
theorem apply_success_patch (r : Feed) (t c : String) :
    Storage.UpdateFeed.apply [("lastChecked", Value.string t), ("lastChapter", Value.string c),
        ("lastError", Value.nil), ("failCount", Value.int 0)] r
      = { r with LastChecked := some t, LastChapter := some c, LastError := none, FailCount := 0 } := by
  rfl

/-- Effect of the patch written when the filter matched nothing. -/
theorem apply_nomatch_patch (r : Feed) (t : String) :
    Storage.UpdateFeed.apply [("lastChecked", Value.string t), ("lastError", Value.nil),
        ("failCount", Value.int 0)] r
      = { r with LastChecked := some t, LastError := none, FailCount := 0 } := by
  rfl

/-- Effect of the patch written when the attempts are used up. -/
theorem apply_failure_patch (r : Feed) (t e : String) (k : Int) :
    Storage.UpdateFeed.apply [("lastChecked", Value.string t), ("lastError", Value.string e),
        ("failCount", Value.int k)] r
      = { r with LastChecked := some t, LastError := some e, FailCount := k } := by
  rfl

/-- What `SendNotification` returns and which parts of the world it leaves alone. -/
theorem SendNotification_effect (n : Notifier) (o : Oracle) (feedName chapter link feedType : String)
    (anilistUrl : Option String) (w : World) :
    (n.SendNotification o feedName chapter link feedType anilistUrl w).1 = none ∧
    (n.SendNotification o feedName chapter link feedType anilistUrl w).2.calls
      = w.calls ++ [Call.notification feedName chapter link feedType anilistUrl] ∧
    (n.SendNotification o feedName chapter link feedType anilistUrl w).2.storage = w.storage ∧
    (n.SendNotification o feedName chapter link feedType anilistUrl w).2.stats = w.stats ∧
    (n.SendNotification o feedName chapter link feedType anilistUrl w).2.fetches = w.fetches ∧
    (n.SendNotification o feedName chapter link feedType anilistUrl w).2.clock = w.clock ∧
    (n.SendNotification o feedName chapter link feedType anilistUrl w).2.sleeps = w.sleeps := by
  unfold Notifier.SendNotification Notifier.sendToGotify Notifier.sendToDiscord
  refine ⟨rfl, ?_, ?_, ?_, ?_, ?_, ?_⟩ <;> dsimp only <;> split_ifs <;> rfl

/-- An attempt whose fetch fails or is empty returns that error and only counts the fetch. -/
theorem checkFeedOnce_failed (o : Oracle) (n : Notifier) (feed : Feed) (w : World) (e : String)
    (h : attemptError (o.parseURL w.fetches feed.RSSUrl) = some e) :
    checkFeedOnce o n feed w = (some e, { w with fetches := w.fetches + 1 }) := by
  unfold checkFeedOnce
  cases hf : o.parseURL w.fetches feed.RSSUrl with
  | error err => rw [hf] at h; simp [attemptError] at h; simp [h]
  | ok items =>
    cases items with
    | nil => rw [hf] at h; simp [attemptError] at h; simp [h]
    | cons a l => rw [hf] at h; simp [attemptError] at h

/-- An attempt whose fetch delivers items returns nil and writes the success patch. -/
theorem checkFeedOnce_fetched (o : Oracle) (n : Notifier) (feed : Feed) (w : World)
    (first : Item) (rest : List Item)
    (hfetch : o.parseURL w.fetches feed.RSSUrl = Except.ok (first :: rest)) :
    (checkFeedOnce o n feed w).1 = none ∧
    (checkFeedOnce o n feed w).2.storage
      = (w.storage.UpdateFeed feed.ID
          (successPatch o w (checkFeedOnce.latestItem o feed first rest))).2 ∧
    (checkFeedOnce o n feed w).2.fetches = w.fetches + 1 ∧
    (checkFeedOnce o n feed w).2.clock = w.clock + 1 ∧
    (checkFeedOnce o n feed w).2.sleeps = w.sleeps ∧
    (checkFeedOnce o n feed w).2.stats.TotalChecks = w.stats.TotalChecks ∧
    (checkFeedOnce o n feed w).2.stats.SuccessfulChecks = w.stats.SuccessfulChecks ∧
    (checkFeedOnce o n feed w).2.stats.FailedChecks = w.stats.FailedChecks := by
  simp only [checkFeedOnce, hfetch]
  rcases hc : checkFeedOnce.latestItem o feed first rest with _ | item
  · simp [successPatch]
  · rcases hm : feed.LastChapter with _ | m
    · simp [successPatch]
    · by_cases hne : m = item.Title
      · simp [successPatch, hne]
      · obtain ⟨h1, h2, h3, h4, h5, h6, h7⟩ := SendNotification_effect n o feed.Name item.Title
          item.Link feed.Type_ feed.AnilistUrl { w with fetches := w.fetches + 1 }
        simp only [successPatch, hne, ne_eq, not_false_eq_true, if_true]
        generalize n.SendNotification o feed.Name item.Title item.Link feed.Type_ feed.AnilistUrl
          { w with fetches := w.fetches + 1 } = res at h1 h2 h3 h4 h5 h6 h7
        obtain ⟨e, w1⟩ := res
        simp only at h1 h2 h3 h4 h5 h6 h7
        subst h1
        simp [h3, h4, h5, h6, h7]

/-- When every remaining attempt fails, the loop runs out with the last error. -/
theorem CheckFeed_loop_all_failed (o : Oracle) (n : Notifier) (feed : Feed) (retries : Int) :
    ∀ (k : Nat) (attempt : Int) (lastErr : Option String) (w : World),
      (∀ i, i < k → attemptError (o.parseURL (w.fetches + i) feed.RSSUrl) ≠ none) →
      ∃ sl, CheckFeed.loop o n feed retries k attempt lastErr w
        = (LoopExit.exhausted
            (if k = 0 then lastErr else attemptError (o.parseURL (w.fetches + (k - 1)) feed.RSSUrl)),
           { w with fetches := w.fetches + k, sleeps := sl }) := by
  intro k
  induction k with
  | zero => intro attempt lastErr w _; exact ⟨w.sleeps, rfl⟩
  | succ k ih =>
    intro attempt lastErr w hfail
    have h0 := hfail 0 (Nat.succ_pos k)
    obtain ⟨e, he⟩ := Option.ne_none_iff_exists'.mp h0
    have hstep := checkFeedOnce_failed o n feed w e he
    have hrest : ∀ sl, ∀ i, i < k → attemptError (o.parseURL
        (({ w with fetches := w.fetches + 1, sleeps := sl } : World).fetches + i) feed.RSSUrl) ≠ none := by
      intro sl i hi
      have := hfail (i + 1) (Nat.succ_lt_succ hi)
      simpa [Nat.add_assoc, Nat.add_comm 1 i] using this
    have hlast : (if k = 0 then some e
        else attemptError (o.parseURL (w.fetches + 1 + (k - 1)) feed.RSSUrl))
        = attemptError (o.parseURL (w.fetches + (k + 1 - 1)) feed.RSSUrl) := by
      by_cases hk : k = 0
      · subst hk; simpa using he.symm
      · have : w.fetches + 1 + (k - 1) = w.fetches + (k + 1 - 1) := by omega
        simp [hk, this]
    simp only [CheckFeed.loop, hstep]
    by_cases hlt : attempt < retries
    · obtain ⟨sl, hsl⟩ := ih (attempt + 1) (some e)
        { w with fetches := w.fetches + 1, sleeps := w.sleeps ++ [attempt * 1000000000] }
        (hrest _)
      refine ⟨sl, ?_⟩
      simp only [hlt, if_true]
      rw [hsl]
      simp only [Nat.succ_ne_zero, if_false]
      rw [hlast]
      simp [Nat.add_assoc, Nat.add_comm 1 k]
    · obtain ⟨sl, hsl⟩ := ih (attempt + 1) (some e)
        { w with fetches := w.fetches + 1, sleeps := w.sleeps } (hrest _)
      refine ⟨sl, ?_⟩
      simp only [hlt, if_false]
      rw [hsl]
      simp only [Nat.succ_ne_zero, if_false]
      rw [hlast]
      simp [Nat.add_assoc, Nat.add_comm 1 k]

/-- No attempt error means the fetch delivered a non-empty item list. -/
theorem attemptError_eq_none {r : Except String (List Item)} (h : attemptError r = none) :
    ∃ first rest, r = Except.ok (first :: rest) := by
  rcases r with err | items
  · simp [attemptError] at h
  · rcases items with _ | ⟨first, rest⟩
    · simp [attemptError] at h
    · exact ⟨first, rest, rfl⟩

/-- One failed iteration of the retry loop. -/
theorem CheckFeed_loop_step_failed (o : Oracle) (n : Notifier) (feed : Feed) (retries : Int)
    (k : Nat) (attempt : Int) (lastErr : Option String) (w : World) (e : String)
    (he : attemptError (o.parseURL w.fetches feed.RSSUrl) = some e) :
    ∃ sl, CheckFeed.loop o n feed retries (k + 1) attempt lastErr w
      = CheckFeed.loop o n feed retries k (attempt + 1) (some e)
          { w with fetches := w.fetches + 1, sleeps := sl } := by
  have hstep := checkFeedOnce_failed o n feed w e he
  by_cases hlt : attempt < retries
  · exact ⟨w.sleeps ++ [attempt * 1000000000], by simp only [CheckFeed.loop, hstep, hlt, if_true]⟩
  · exact ⟨w.sleeps, by simp only [CheckFeed.loop, hstep, hlt, if_false]⟩

/-- A successful iteration of the retry loop. -/
theorem CheckFeed_loop_step_ok (o : Oracle) (n : Notifier) (feed : Feed) (retries : Int)
    (k : Nat) (attempt : Int) (lastErr : Option String) (w : World)
    (hok : attemptError (o.parseURL w.fetches feed.RSSUrl) = none) :
    CheckFeed.loop o n feed retries (k + 1) attempt lastErr w
      = (LoopExit.returned,
          { (checkFeedOnce o n feed w).2 with
            stats :=
              { (checkFeedOnce o n feed w).2.stats with
                SuccessfulChecks := (checkFeedOnce o n feed w).2.stats.SuccessfulChecks + 1 } }) := by
  obtain ⟨first, rest, hfetch⟩ := attemptError_eq_none hok
  have h1 := (checkFeedOnce_fetched o n feed w first rest hfetch).1
  simp only [CheckFeed.loop]
  generalize checkFeedOnce o n feed w = res at h1
  obtain ⟨e, w1⟩ := res
  simp only at h1
  subst h1
  rfl

/-- After `k` failed attempts and a successful one the loop returns. -/
theorem CheckFeed_loop_succeeds (o : Oracle) (n : Notifier) (feed : Feed) (retries : Int) (m : Nat) :
    ∀ (k : Nat) (attempt : Int) (lastErr : Option String) (w : World),
      (∀ i, i < k → attemptError (o.parseURL (w.fetches + i) feed.RSSUrl) ≠ none) →
      attemptError (o.parseURL (w.fetches + k) feed.RSSUrl) = none →
      ∃ sl, CheckFeed.loop o n feed retries (k + m + 1) attempt lastErr w
        = (LoopExit.returned,
            { (checkFeedOnce o n feed { w with fetches := w.fetches + k, sleeps := sl }).2 with
              stats :=
                { (checkFeedOnce o n feed { w with fetches := w.fetches + k, sleeps := sl }).2.stats with
                  SuccessfulChecks :=
                    (checkFeedOnce o n feed
                      { w with fetches := w.fetches + k, sleeps := sl }).2.stats.SuccessfulChecks + 1 } }) := by
  intro k
  induction k with
  | zero =>
    intro attempt lastErr w _ hok
    exact ⟨w.sleeps, CheckFeed_loop_step_ok o n feed retries (0 + m) attempt lastErr w hok⟩
  | succ k ih =>
    intro attempt lastErr w hfail hok
    obtain ⟨e, he⟩ := Option.ne_none_iff_exists'.mp (hfail 0 (Nat.succ_pos k))
    obtain ⟨sl0, hstep⟩ := CheckFeed_loop_step_failed o n feed retries (k + m + 1) attempt lastErr w e he
    have hrest : ∀ i, i < k → attemptError (o.parseURL
        (({ w with fetches := w.fetches + 1, sleeps := sl0 } : World).fetches + i) feed.RSSUrl) ≠ none := by
      intro i hi
      have := hfail (i + 1) (Nat.succ_lt_succ hi)
      simpa [Nat.add_assoc, Nat.add_comm 1 i] using this
    have hok1 : attemptError (o.parseURL
        (({ w with fetches := w.fetches + 1, sleeps := sl0 } : World).fetches + k) feed.RSSUrl) = none := by
      simpa [Nat.add_assoc, Nat.add_comm 1 k] using hok
    obtain ⟨sl, hsl⟩ := ih (attempt + 1) (some e) _ hrest hok1
    refine ⟨sl, ?_⟩
    have hk : k + 1 + m + 1 = (k + m + 1) + 1 := by omega
    rw [hk, hstep, hsl]
    simp [Nat.add_assoc, Nat.add_comm 1 k]

/-- The import loop appends one cleared record per candidate whose URL is not
among the URLs collected before the loop, and counts the others as skipped. -/
theorem ImportFeeds_loop_spec (o : Oracle) (existingUrls : List String) :
    ∀ (feeds data : List Feed) (imported skipped : Int) (clock : Nat),
      ∃ (news : List Feed) (clock1 : Nat),
        Storage.ImportFeeds.loop o existingUrls feeds data imported skipped clock
          = (data ++ news, imported + news.length,
             skipped + (feeds.filter (fun c => decide (c.RSSUrl ∈ existingUrls))).length, clock1) ∧
        (news.length : Int) + (feeds.filter (fun c => decide (c.RSSUrl ∈ existingUrls))).length
          = feeds.length ∧
        news.map (fun f => f.RSSUrl)
          = (feeds.filter (fun c => !decide (c.RSSUrl ∈ existingUrls))).map (fun f => f.RSSUrl) ∧
        ∀ x ∈ news, x.LastChapter = none ∧ x.LastChecked = none ∧ x.LastError = none ∧
          x.FailCount = 0 := by
  intro feeds
  induction feeds with
  | nil =>
    intro data imported skipped clock
    exact ⟨[], clock, by simp [Storage.ImportFeeds.loop], by simp, by simp, by simp⟩
  | cons c cs ih =>
    intro data imported skipped clock
    by_cases hc : c.RSSUrl ∈ existingUrls
    · obtain ⟨news, clock1, h1, h2, h3, h4⟩ := ih data imported (skipped + 1) clock
      refine ⟨news, clock1, ?_, ?_, ?_, h4⟩
      · simp only [Storage.ImportFeeds.loop, hc, if_true, h1, List.filter_cons, decide_True,
          List.length_cons]
        simp only [Prod.mk.injEq, true_and, Nat.cast_add, Nat.cast_one]
        refine ⟨?_, trivial⟩
        omega
      · simp only [List.filter_cons, hc, decide_True, if_true, List.length_cons]
        push_cast
        omega
      · simpa [List.filter_cons, hc] using h3
    · obtain ⟨news, clock1, h1, h2, h3, h4⟩ := ih
        (data ++ [Storage.ImportFeeds.fresh o c imported clock]) (imported + 1) skipped (clock + 2)
      refine ⟨Storage.ImportFeeds.fresh o c imported clock :: news, clock1, ?_, ?_, ?_, ?_⟩
      · simp only [Storage.ImportFeeds.loop, hc, if_false, h1, List.filter_cons, decide_False,
          List.append_assoc, List.singleton_append, List.length_cons, Prod.mk.injEq, true_and,
          Nat.cast_add, Nat.cast_one, Bool.false_eq_true, and_true]
        omega
      · simp only [List.filter_cons, hc, decide_False, List.length_cons, Bool.false_eq_true,
          if_false]
        push_cast
        omega
      · simp only [List.filter_cons, hc, decide_False, List.map_cons, Bool.not_false, if_true, h3]
        congr 1
        unfold Storage.ImportFeeds.fresh
        dsimp only
        split_ifs <;> rfl
      · intro x hx
        rcases List.mem_cons.mp hx with rfl | hx
        · unfold Storage.ImportFeeds.fresh
          dsimp only
          split_ifs <;> exact ⟨rfl, rfl, rfl, rfl⟩
        · exact h4 x hx

/-- Within the range of Go's `int` the machine sum is the sum. -/
theorem wrapInt64_of_range (n : Int)
    (hlo : -9223372036854775808 ≤ n) (hhi : n ≤ 9223372036854775807) : wrapInt64 n = n := by
  unfold wrapInt64
  omega

/-- The substring test on character lists holds exactly of the lists that occur
as a run of consecutive characters. -/
theorem containsChars_iff (sub : List Char) :
    ∀ s : List Char, containsChars s sub = true ↔ sub <:+: s := by
  intro s
  induction s with
  | nil => simp [containsChars, List.isEmpty_iff]
  | cons c cs ih =>
    rw [containsChars, Bool.or_eq_true, ih, List.infix_cons_iff, List.isPrefixOf_iff_prefix]

/-- A mapped list occurs in a mapped list exactly when some run of the second
has the same image as the first. -/
theorem map_infix_iff {α β : Type} (f : α → β) (q x : List α) :
    q.map f <:+: x.map f ↔ ∃ u, u <:+: x ∧ u.map f = q.map f := by
  constructor
  · rintro ⟨pre, post, h⟩
    rw [List.append_eq_map_iff] at h
    obtain ⟨l12, l3, hx, h12, -⟩ := h
    rw [List.map_eq_append_iff] at h12
    obtain ⟨l1, l2, hl, -, h2⟩ := h12
    exact ⟨l2, ⟨l1, l3, by rw [hx, hl]⟩, h2⟩
  · rintro ⟨u, hu, he⟩
    rw [← he]
    exact hu.map f

/-- The test of the filter loop holds exactly when the title contains the
filter, the case of letters ignored. -/
theorem titleMatches_iff (o : Oracle) (filter : String) (item : Item) :
    titleMatches o filter item = true ↔
      ContainsIgnoringCase (unicodeToLower o) item.Title filter := by
  unfold titleMatches stringsContains stringsToLower ContainsIgnoringCase
  rw [containsChars_iff]
  exact map_infix_iff (unicodeToLower o) filter.toList item.Title.toList

/-- On ASCII letters `unicode.ToLower` sends a capital and its small letter to
the small letter. -/
theorem unicodeToLower_capital (o : Oracle) (r : Char) (h1 : 'A' ≤ r) (h2 : r ≤ 'Z') :
    unicodeToLower o r = Char.ofNat (r.toNat + 32) ∧
    unicodeToLower o (Char.ofNat (r.toNat + 32)) = Char.ofNat (r.toNat + 32) := by
  have hA : 65 ≤ r.toNat := h1
  have hZ : r.toNat ≤ 90 := h2
  generalize hn : r.toNat = m at hA hZ
  have hr : r = Char.ofNat m := by
    rw [← hn]
    exact (Char.ofNat_toNat r).symm
  subst hr
  interval_cases m <;> simp [unicodeToLower]

/-! ## Change detection (one attempt) -/

/-- C1: in an attempt whose fetch delivers items and whose selection yields
the candidate `item`, the dispatcher is called exactly once, and
`NotificationsSent` grows by exactly one, when the feed's marker is non-nil
and differs from the candidate's title, whatever the channel configuration
and whatever the outcome of the channel sends; when the marker is nil or
equals the title, the dispatcher is not called, nothing is sent and
`NotificationsSent` keeps its value. -/
theorem C1_dispatch_exactly_on_change (o : Oracle) (n : Notifier) (feed : Feed) (w : World)
    (first : Item) (rest : List Item) (item : Item)
    (hfetch : o.parseURL w.fetches feed.RSSUrl = Except.ok (first :: rest))
    (hcand : checkFeedOnce.latestItem o feed first rest = some item) :
    (∀ m, feed.LastChapter = some m → m ≠ item.Title →
      (checkFeedOnce o n feed w).2.calls
        = w.calls ++ [Call.notification feed.Name item.Title item.Link feed.Type_ feed.AnilistUrl] ∧
      (checkFeedOnce o n feed w).2.stats.NotificationsSent = w.stats.NotificationsSent + 1) ∧
    (feed.LastChapter = none ∨ feed.LastChapter = some item.Title →
      (checkFeedOnce o n feed w).2.calls = w.calls ∧
      (checkFeedOnce o n feed w).2.sent = w.sent ∧
      (checkFeedOnce o n feed w).2.stats.NotificationsSent = w.stats.NotificationsSent) := by
  simp only [checkFeedOnce, hfetch, hcand]
  constructor
  · intro m hm hne
    obtain ⟨h1, h2, _, h4, _, _, _⟩ := SendNotification_effect n o feed.Name item.Title
      item.Link feed.Type_ feed.AnilistUrl { w with fetches := w.fetches + 1 }
    simp only [hm, hne, ne_eq, not_false_eq_true, if_true]
    generalize n.SendNotification o feed.Name item.Title item.Link feed.Type_ feed.AnilistUrl
      { w with fetches := w.fetches + 1 } = res at h1 h2 h4
    obtain ⟨e, w1⟩ := res
    simp only at h1 h2 h4
    subst h1
    simp [h2, h4]
  · rintro (hm | hm) <;> simp [hm]

/-- The sample manga feed has marker `Chapter 1` and the source delivers
`Chapter 2`: one dispatcher call and one more notification counted, with both
channels failing. -/
theorem C1_dispatch_exactly_on_change_witness :
    (checkFeedOnce sampleOracle sampleNotifier sampleFeed sampleWorld).2.calls
      = [Call.notification "Berserk" "Chapter 2" "https://example.org/2" "manga" none] ∧
    (checkFeedOnce sampleOracle sampleNotifier sampleFeed sampleWorld).2.stats.NotificationsSent
      = 1 :=
  (C1_dispatch_exactly_on_change sampleOracle sampleNotifier sampleFeed sampleWorld
    { Title := "Chapter 2", Link := "https://example.org/2", PublishedParsed := none } []
    { Title := "Chapter 2", Link := "https://example.org/2", PublishedParsed := none }
    rfl rfl).1 "Chapter 1" rfl (by decide)

/-- C2: let the store hold the record `r` under the feed's id (the first with
that id, which is the one `UpdateFeed` addresses). After an attempt whose
fetch delivers items, the attempt returns nil and the store is the old one
with `r` replaced by a record that has `LastChecked` set to the formatted
clock reading, `LastError` nil and `FailCount` 0, and whose marker is the
candidate's title when a candidate was selected and the old marker when none
was, which happens only for an anime feed; every other field of `r` and every
other record is as before. -/
theorem C2_successful_attempt_record (o : Oracle) (n : Notifier) (feed : Feed) (w : World)
    (first : Item) (rest : List Item) (pre post : List Feed) (r : Feed)
    (hfetch : o.parseURL w.fetches feed.RSSUrl = Except.ok (first :: rest))
    (hstore : w.storage.read = pre ++ r :: post)
    (hpre : ∀ x ∈ pre, x.ID ≠ feed.ID) (hr : r.ID = feed.ID) :
    (checkFeedOnce o n feed w).1 = none ∧
    (checkFeedOnce o n feed w).2.storage
      = Storage.write (pre ++
          { r with
            LastChecked := some (o.formatRFC3339 (o.now w.clock))
            LastError := none
            FailCount := 0
            LastChapter :=
              match checkFeedOnce.latestItem o feed first rest with
              | some item => some item.Title
              | none => r.LastChapter } :: post) ∧
    (checkFeedOnce o n feed w).2.storage.read.Perm (pre ++
          { r with
            LastChecked := some (o.formatRFC3339 (o.now w.clock))
            LastError := none
            FailCount := 0
            LastChapter :=
              match checkFeedOnce.latestItem o feed first rest with
              | some item => some item.Title
              | none => r.LastChapter } :: post) ∧
    (checkFeedOnce.latestItem o feed first rest = none → feed.Type_ = FeedTypeAnime) := by
  obtain ⟨h1, h2, -⟩ := checkFeedOnce_fetched o n feed w first rest hfetch
  have hst : (checkFeedOnce o n feed w).2.storage
      = Storage.write (pre ++
          { r with
            LastChecked := some (o.formatRFC3339 (o.now w.clock))
            LastError := none
            FailCount := 0
            LastChapter :=
              match checkFeedOnce.latestItem o feed first rest with
              | some item => some item.Title
              | none => r.LastChapter } :: post) := by
    rw [h2, UpdateFeed_split w.storage feed.ID _ pre post r hstore hpre hr]
    rcases checkFeedOnce.latestItem o feed first rest with _ | item
    · simp only [successPatch, apply_nomatch_patch]
    · simp only [successPatch, apply_success_patch]
  refine ⟨h1, hst, ?_, ?_⟩
  · rw [hst]; exact read_write_perm _
  · intro hnone
    unfold checkFeedOnce.latestItem at hnone
    split_ifs at hnone with hc
    exact hc.1

/-- The anime no-match case of C2: the sample anime feed filters on `Zzz`,
the source delivers `Chapter 2`; the check succeeds and the record keeps its
marker `Ep 4`, with the error cleared. -/
theorem C2_successful_attempt_record_witness :
    (checkFeedOnce sampleOracle sampleNotifier sampleAnime sampleWorld).1 = none ∧
    (checkFeedOnce sampleOracle sampleNotifier sampleAnime sampleWorld).2.storage
      = Storage.write ([sampleFeed] ++
          { sampleAnime with LastChecked := some "0", LastError := none, FailCount := 0,
                             LastChapter := some "Ep 4" } :: []) :=
  have h := C2_successful_attempt_record sampleOracle sampleNotifier sampleAnime sampleWorld
    { Title := "Chapter 2", Link := "https://example.org/2", PublishedParsed := none } []
    [sampleFeed] [] sampleAnime rfl rfl (by decide) rfl
  ⟨h.1, h.2.1⟩

/-! ## Retries -/

/-- C3 fails on the code where the fail count cannot grow: a stored record whose
fail count is the largest value of Go's `int`, a source that is never
reached, budget 1. The sum `feed.FailCount + 1` wraps, and the record is
stored with the smallest value, not with the count one higher. -/
theorem C3_counterexample :
    (CheckFeed downOracle sampleNotifier saturatedFeed 1
        { sampleWorld with storage := { mangaFile := [saturatedFeed], animeFile := [] } }).1
      = CheckResult.error "failed to parse RSS: timeout 0" ∧
    ({ sampleWorld with storage := { mangaFile := [saturatedFeed], animeFile := [] } }
        : World).storage.read = [saturatedFeed] ∧
    (CheckFeed downOracle sampleNotifier saturatedFeed 1
        { sampleWorld with storage := { mangaFile := [saturatedFeed], animeFile := [] } }).2.storage.read.map
          (fun f => f.FailCount)
      = [-9223372036854775808] ∧
    (-9223372036854775808 : Int) ≠ saturatedFeed.FailCount + 1 := by
  refine ⟨rfl, rfl, by decide, by decide⟩

/-- C3 as amended: let the attempt budget be at least 1 and let the feed be the
record the store holds under its id. If each of the `retries` attempts fails
(its fetch ends in an error or delivers no items), then `CheckFeed` returns
the error of the last attempt, having made exactly `retries` fetches;
`TotalChecks` and `FailedChecks` each grow by exactly one and
`SuccessfulChecks` keeps its value; and the store is the old one with the
feed's record given the machine sum of its `FailCount` and 1, `LastError` the
message of the last attempt and a fresh `LastChecked`, its marker and every
other field and record as before. For a fail count within the range of Go's
`int` and below its largest value, the stored count is one higher. -/
theorem C3_retry_exhaustion (o : Oracle) (n : Notifier) (feed : Feed) (retries : Int) (w : World)
    (pre post : List Feed)
    (hn : 1 ≤ retries)
    (hstore : w.storage.read = pre ++ feed :: post)
    (hpre : ∀ x ∈ pre, x.ID ≠ feed.ID)
    (hfail : ∀ i : Nat, (i : Int) < retries →
      attemptError (o.parseURL (w.fetches + i) feed.RSSUrl) ≠ none) :
    ∃ e, attemptError (o.parseURL (w.fetches + (retries.toNat - 1)) feed.RSSUrl) = some e ∧
      (CheckFeed o n feed retries w).1 = CheckResult.error e ∧
      (CheckFeed o n feed retries w).2.fetches = w.fetches + retries.toNat ∧
      (CheckFeed o n feed retries w).2.stats.TotalChecks = w.stats.TotalChecks + 1 ∧
      (CheckFeed o n feed retries w).2.stats.FailedChecks = w.stats.FailedChecks + 1 ∧
      (CheckFeed o n feed retries w).2.stats.SuccessfulChecks = w.stats.SuccessfulChecks ∧
      (CheckFeed o n feed retries w).2.storage
        = Storage.write (pre ++
            { feed with
              LastChecked := some (o.formatRFC3339 (o.now w.clock))
              LastError := some e
              FailCount := wrapInt64 (feed.FailCount + 1) } :: post) ∧
      (-9223372036854775808 ≤ feed.FailCount → feed.FailCount < 9223372036854775807 →
        (CheckFeed o n feed retries w).2.storage
          = Storage.write (pre ++
              { feed with
                LastChecked := some (o.formatRFC3339 (o.now w.clock))
                LastError := some e
                FailCount := feed.FailCount + 1 } :: post)) := by
  have hk : retries.toNat ≠ 0 := by omega
  have hlastlt : ((retries.toNat - 1 : Nat) : Int) < retries := by omega
  obtain ⟨e, he⟩ := Option.ne_none_iff_exists'.mp (hfail (retries.toNat - 1) hlastlt)
  obtain ⟨sl, hloop⟩ := CheckFeed_loop_all_failed o n feed retries retries.toNat 1 none
    { w with stats := { w.stats with TotalChecks := w.stats.TotalChecks + 1 } }
    (fun i hi => hfail i (by omega))
  simp only [hk, if_false] at hloop
  rw [he] at hloop
  have hst : (CheckFeed o n feed retries w).2.storage
        = Storage.write (pre ++
            { feed with
              LastChecked := some (o.formatRFC3339 (o.now w.clock))
              LastError := some e
              FailCount := wrapInt64 (feed.FailCount + 1) } :: post) := by
    simp only [CheckFeed, hloop]
    rw [UpdateFeed_split w.storage feed.ID _ pre post feed hstore hpre rfl, apply_failure_patch]
  refine ⟨e, he, ?_, ?_, ?_, ?_, ?_, hst, ?_⟩
  · simp only [CheckFeed, hloop]
  · simp only [CheckFeed, hloop]
  · simp only [CheckFeed, hloop]
  · simp only [CheckFeed, hloop]
  · simp only [CheckFeed, hloop]
  · intro hlo hhi
    rw [hst, wrapInt64_of_range (feed.FailCount + 1) (by omega) (by omega)]

/-- A source that is never reached, budget 3: the error returned and stored is
that of the third attempt, and the fail count goes from 2 to 3. -/
theorem C3_retry_exhaustion_witness :
    (CheckFeed downOracle sampleNotifier sampleFeed 3 sampleWorld).1
      = CheckResult.error "failed to parse RSS: timeout 2" ∧
    (CheckFeed downOracle sampleNotifier sampleFeed 3 sampleWorld).2.stats.FailedChecks = 1 ∧
    (CheckFeed downOracle sampleNotifier sampleFeed 3 sampleWorld).2.storage
      = Storage.write ([] ++
          { sampleFeed with LastChecked := some "0",
                            LastError := some "failed to parse RSS: timeout 2",
                            FailCount := 3 } :: [sampleAnime]) := by
  obtain ⟨e, he, h1, -, -, h4, -, -, h7⟩ :=
    C3_retry_exhaustion downOracle sampleNotifier sampleFeed 3 sampleWorld [] [sampleAnime]
      (by decide) rfl (by simp) (by intro i _; simp [downOracle, attemptError])
  have hev : e = "failed to parse RSS: timeout 2" := by
    have : attemptError (downOracle.parseURL (sampleWorld.fetches + ((3 : Int).toNat - 1))
        sampleFeed.RSSUrl) = some "failed to parse RSS: timeout 2" := by decide
    rw [this] at he
    exact (Option.some.inj he).symm
  subst hev
  exact ⟨h1, h4, h7 (by decide) (by decide)⟩

/-- C4: let `1 ≤ k ≤ retries`, let attempts 1 to k-1 fail and let the fetch of
attempt k deliver items. Then `CheckFeed` returns nil after exactly k fetches;
`TotalChecks` grows by exactly one (one per call, not per attempt),
`SuccessfulChecks` by exactly one, `FailedChecks` keeps its value; and the
only write to the store is that of the successful attempt, which leaves the
feed's record with `LastError` nil and `FailCount` 0: no error and no
incremented fail count is stored. -/
theorem C4_retry_success (o : Oracle) (n : Notifier) (feed : Feed) (retries : Int) (w : World)
    (k : Nat) (first : Item) (rest : List Item) (pre post : List Feed) (r : Feed)
    (hk : 1 ≤ k) (hkn : (k : Int) ≤ retries)
    (hfail : ∀ i : Nat, i + 1 < k →
      attemptError (o.parseURL (w.fetches + i) feed.RSSUrl) ≠ none)
    (hok : o.parseURL (w.fetches + (k - 1)) feed.RSSUrl = Except.ok (first :: rest))
    (hstore : w.storage.read = pre ++ r :: post)
    (hpre : ∀ x ∈ pre, x.ID ≠ feed.ID) (hr : r.ID = feed.ID) :
    (CheckFeed o n feed retries w).1 = CheckResult.ok ∧
    (CheckFeed o n feed retries w).2.fetches = w.fetches + k ∧
    (CheckFeed o n feed retries w).2.stats.TotalChecks = w.stats.TotalChecks + 1 ∧
    (CheckFeed o n feed retries w).2.stats.SuccessfulChecks = w.stats.SuccessfulChecks + 1 ∧
    (CheckFeed o n feed retries w).2.stats.FailedChecks = w.stats.FailedChecks ∧
    (CheckFeed o n feed retries w).2.storage
      = Storage.write (pre ++
          { r with
            LastChecked := some (o.formatRFC3339 (o.now w.clock))
            LastError := none
            FailCount := 0
            LastChapter :=
              match checkFeedOnce.latestItem o feed first rest with
              | some item => some item.Title
              | none => r.LastChapter } :: post) := by
  have hsplit : retries.toNat = (k - 1) + (retries.toNat - k) + 1 := by omega
  obtain ⟨sl, hloop⟩ := CheckFeed_loop_succeeds o n feed retries (retries.toNat - k) (k - 1) 1 none
    { w with stats := { w.stats with TotalChecks := w.stats.TotalChecks + 1 } }
    (fun i hi => hfail i (by omega)) (by simp only [hok, attemptError])
  rw [← hsplit] at hloop
  obtain ⟨-, h2, h3, -, -, h6, h7, h8⟩ := checkFeedOnce_fetched o n feed
    { w with stats := { w.stats with TotalChecks := w.stats.TotalChecks + 1 },
             fetches := w.fetches + (k - 1), sleeps := sl } first rest hok
  simp only [CheckFeed, hloop]
  refine ⟨trivial, ?_, ?_, ?_, ?_, ?_⟩
  · rw [h3]; show w.fetches + (k - 1) + 1 = w.fetches + k; omega
  · rw [h6]
  · rw [h7]
  · rw [h8]
  · rw [h2]
    show (w.storage.UpdateFeed feed.ID (successPatch o w (checkFeedOnce.latestItem o feed first rest))).2 = _
    rw [UpdateFeed_split w.storage feed.ID _ pre post r hstore hpre hr]
    rcases checkFeedOnce.latestItem o feed first rest with _ | item
    · simp only [successPatch, apply_nomatch_patch]
    · simp only [successPatch, apply_success_patch]

/-- Two failed fetches, then items, budget 3: success after three fetches, one
check counted, no failure recorded. -/
theorem C4_retry_success_witness :
    (CheckFeed flakyOracle sampleNotifier sampleFeed 3 sampleWorld).1 = CheckResult.ok ∧
    (CheckFeed flakyOracle sampleNotifier sampleFeed 3 sampleWorld).2.fetches = 3 ∧
    (CheckFeed flakyOracle sampleNotifier sampleFeed 3 sampleWorld).2.stats.TotalChecks = 1 ∧
    (CheckFeed flakyOracle sampleNotifier sampleFeed 3 sampleWorld).2.stats.SuccessfulChecks = 1 ∧
    (CheckFeed flakyOracle sampleNotifier sampleFeed 3 sampleWorld).2.stats.FailedChecks = 0 :=
  have h := C4_retry_success flakyOracle sampleNotifier sampleFeed 3 sampleWorld 3
    { Title := "Chapter 2", Link := "https://example.org/2", PublishedParsed := none } []
    [] [sampleAnime] sampleFeed (by decide) (by decide)
    (by intro i hi
        have hi2 : i < 2 := by omega
        simp [flakyOracle, sampleWorld, hi2, attemptError])
    rfl rfl (by simp) rfl
  ⟨h.1, h.2.1, h.2.2.1, h.2.2.2.1, h.2.2.2.2.1⟩

/-! ## Partial updates -/

/-- C5, evaluated where the code departs from it: the sample manga record has
`LastError = "boom"`; the patch mentions only `name`, so indexing it at
`lastError` yields the nil interface, the test `lastError == nil` of
`UpdateFeed` succeeds, and the stored record comes back renamed and with its
`LastError` cleared. -/
theorem C5_absent_lastError_is_cleared :
    sampleFeed.LastError = some "boom" ∧
    Updates.index [("name", Value.string "Berserk Deluxe")] "lastError" = Value.nil ∧
    (sampleWorld.storage.UpdateFeed "1" [("name", Value.string "Berserk Deluxe")]).1
      = Except.ok { sampleFeed with Name := "Berserk Deluxe", LastError := none } ∧
    (sampleWorld.storage.UpdateFeed "1" [("name", Value.string "Berserk Deluxe")]).2.read
      = [{ sampleFeed with Name := "Berserk Deluxe", LastError := none }, sampleAnime] :=
  ⟨rfl, rfl, rfl, rfl⟩

/-! ## Candidate selection -/

/-- C6: on a non-empty item list, for an anime feed with a non-empty search
filter the candidate of a check attempt is an item whose title contains the
filter, the case of letters ignored (some run of consecutive characters of
the title equals the filter once both are lower-cased rune by rune by
`unicode.ToLower`), and which no such item precedes in the returned order;
there is no candidate exactly when no title contains the filter in that
sense. For any other feed (not anime, or no filter, or an empty one) the
candidate is the first item. `TestFeed` selects the same candidate. The
lower-casing sends each of the letters `A` to `Z` and its small letter to the
same character. -/
theorem C6_candidate_selection (o : Oracle) (feed : Feed) (first : Item) (rest : List Item) :
    (feed.Type_ = FeedTypeAnime → ∀ filter, feed.SearchText = some filter → filter ≠ "" →
      (∀ item, checkFeedOnce.latestItem o feed first rest = some item ↔
        ContainsIgnoringCase (unicodeToLower o) item.Title filter ∧
        ∃ earlier later, first :: rest = earlier ++ item :: later ∧
          ∀ x ∈ earlier, ¬ ContainsIgnoringCase (unicodeToLower o) x.Title filter) ∧
      (checkFeedOnce.latestItem o feed first rest = none ↔
        ∀ x ∈ first :: rest, ¬ ContainsIgnoringCase (unicodeToLower o) x.Title filter)) ∧
    (feed.Type_ ≠ FeedTypeAnime ∨ feed.SearchText = none ∨ feed.SearchText = some "" →
      checkFeedOnce.latestItem o feed first rest = some first) ∧
    TestFeed.latestItem o feed first rest = checkFeedOnce.latestItem o feed first rest ∧
    (∀ r : Char, 'A' ≤ r → r ≤ 'Z' →
      unicodeToLower o r = unicodeToLower o (Char.ofNat (r.toNat + 32))) := by
  refine ⟨?_, ?_, rfl, fun r h1 h2 => ?_⟩
  · intro hty filter hst hne
    have hcond : feed.Type_ = FeedTypeAnime ∧ feed.SearchText ≠ none ∧ feed.SearchText ≠ some "" := by
      refine ⟨hty, by simp [hst], ?_⟩
      rw [hst]
      intro h
      exact hne (Option.some.inj h)
    have hsel : checkFeedOnce.latestItem o feed first rest
        = (first :: rest).find? (fun item => titleMatches o filter item) := by
      unfold checkFeedOnce.latestItem
      rw [if_pos hcond, hst]
      rfl
    rw [hsel]
    constructor
    · intro item
      rw [List.find?_eq_some]
      simp only [titleMatches_iff, Bool.not_eq_true', ← Bool.not_eq_true]
    · rw [List.find?_eq_none]
      simp only [titleMatches_iff]
  · intro h
    unfold checkFeedOnce.latestItem
    rw [if_neg]
    rintro ⟨hty, hsome, hne⟩
    rcases h with h | h | h
    · exact h hty
    · exact hsome h
    · exact hne h
  · obtain ⟨h3, h4⟩ := unicodeToLower_capital o r h1 h2
    rw [h3, h4]

/-- An anime feed filtering on `dragon RAJA`: of three items the second is the
first whose title contains the filter, whatever the case of the letters, and
it is the candidate. -/
theorem C6_candidate_selection_witness :
    checkFeedOnce.latestItem sampleOracle { sampleAnime with SearchText := some "dragon RAJA" }
        { Title := "One Piece 1100", Link := "a", PublishedParsed := none }
        [{ Title := "Dragon Raja 12", Link := "b", PublishedParsed := none },
         { Title := "Dragon Raja 11", Link := "c", PublishedParsed := none }]
      = some { Title := "Dragon Raja 12", Link := "b", PublishedParsed := none } :=
  (((C6_candidate_selection sampleOracle { sampleAnime with SearchText := some "dragon RAJA" }
        { Title := "One Piece 1100", Link := "a", PublishedParsed := none }
        [{ Title := "Dragon Raja 12", Link := "b", PublishedParsed := none },
         { Title := "Dragon Raja 11", Link := "c", PublishedParsed := none }]).1
      rfl "dragon RAJA" rfl (by decide)).1
    { Title := "Dragon Raja 12", Link := "b", PublishedParsed := none }).mpr
    ⟨⟨"Dragon Raja".toList, by decide, by decide⟩,
      [{ Title := "One Piece 1100", Link := "a", PublishedParsed := none }],
      [{ Title := "Dragon Raja 11", Link := "c", PublishedParsed := none }], rfl,
      fun x hx => by
        have hx1 : x = { Title := "One Piece 1100", Link := "a", PublishedParsed := none } := by
          simpa using hx
        subst hx1
        rw [← titleMatches_iff]
        decide⟩

/-! ## Which failures are retried -/

/-- C7 fails on the code: with budget 2 and a source that delivers an empty
item list, the first attempt ends in the empty-feed error and `CheckFeed`
fetches a second time. -/
theorem C7_counterexample :
    emptyOracle.parseURL sampleWorld.fetches sampleFeed.RSSUrl = Except.ok [] ∧
    (CheckFeed emptyOracle sampleNotifier sampleFeed 2 sampleWorld).2.fetches
      = sampleWorld.fetches + 2 ∧
    (CheckFeed emptyOracle sampleNotifier sampleFeed 2 sampleWorld).2.fetches
      ≠ sampleWorld.fetches + 1 := by
  refine ⟨rfl, rfl, ?_⟩
  decide

/-- C7 as amended: an attempt that ends in the empty-feed error is retried
like any other failed attempt. For every budget of at least 2, a feed whose
source delivers an empty item list at every attempt is fetched exactly
`retries` times by one call of `CheckFeed`, which then fails with the
empty-feed error. -/
theorem C7_empty_feed_is_retried (o : Oracle) (n : Notifier) (feed : Feed) (retries : Int) (w : World)
    (hn : 2 ≤ retries)
    (hempty : ∀ i : Nat, (i : Int) < retries → o.parseURL (w.fetches + i) feed.RSSUrl = Except.ok []) :
    (CheckFeed o n feed retries w).1 = CheckResult.error "no items found in RSS feed" ∧
    (CheckFeed o n feed retries w).2.fetches = w.fetches + retries.toNat := by
  have hk : retries.toNat ≠ 0 := by omega
  have hlastlt : ((retries.toNat - 1 : Nat) : Int) < retries := by omega
  obtain ⟨sl, hloop⟩ := CheckFeed_loop_all_failed o n feed retries retries.toNat 1 none
    { w with stats := { w.stats with TotalChecks := w.stats.TotalChecks + 1 } }
    (fun i hi => by
      have h := hempty i (by omega)
      show attemptError (o.parseURL (w.fetches + i) feed.RSSUrl) ≠ none
      rw [h]; simp [attemptError])
  simp only [hk, if_false] at hloop
  have hlast : attemptError (o.parseURL (w.fetches + (retries.toNat - 1)) feed.RSSUrl)
      = some "no items found in RSS feed" := by
    rw [hempty _ hlastlt]; rfl
  rw [hlast] at hloop
  simp only [CheckFeed, hloop]
  exact ⟨trivial, trivial⟩

/-- Budget 3 and an always empty source: three fetches. -/
theorem C7_empty_feed_is_retried_witness :
    (CheckFeed emptyOracle sampleNotifier sampleFeed 3 sampleWorld).1
      = CheckResult.error "no items found in RSS feed" ∧
    (CheckFeed emptyOracle sampleNotifier sampleFeed 3 sampleWorld).2.fetches = 3 :=
  C7_empty_feed_is_retried emptyOracle sampleNotifier sampleFeed 3 sampleWorld (by decide)
    (fun _ _ => rfl)

/-! ## Dispatch -/

/-- C8: for every channel configuration and every outcome of the channel
sends, `SendNotification` and `SendTestNotification` return nil and attempt
exactly one send on Gotify if server and token are both non-empty, followed by
exactly one send on Discord if a session exists and the channel id is
non-empty, and nothing else; a failed Gotify send does not keep the Discord
send from being attempted. -/
theorem C8_dispatch_isolated (n : Notifier) (o : Oracle) (feedName chapter link feedType : String)
    (anilistUrl : Option String) (w : World) :
    (n.SendNotification o feedName chapter link feedType anilistUrl w).1 = none ∧
    (n.SendTestNotification o feedName chapter link feedType anilistUrl w).1 = none ∧
    (∃ msg title color,
      (n.SendNotification o feedName chapter link feedType anilistUrl w).2.sent
        = w.sent
          ++ (if n.gotifyServer ≠ "" ∧ n.gotifyToken ≠ "" then [ChannelSend.gotify msg] else [])
          ++ (if n.discordSession = true ∧ n.discordChannelID ≠ "" then
                [ChannelSend.discord title feedName chapter link anilistUrl color] else [])) ∧
    (∃ msg title color,
      (n.SendTestNotification o feedName chapter link feedType anilistUrl w).2.sent
        = w.sent
          ++ (if n.gotifyServer ≠ "" ∧ n.gotifyToken ≠ "" then [ChannelSend.gotify msg] else [])
          ++ (if n.discordSession = true ∧ n.discordChannelID ≠ "" then
                [ChannelSend.discord title feedName chapter link anilistUrl color] else [])) := by
  refine ⟨rfl, rfl, ?_, ?_⟩
  · by_cases hg : n.gotifyServer ≠ "" ∧ n.gotifyToken ≠ "" <;>
    by_cases hd : n.discordSession = true ∧ n.discordChannelID ≠ "" <;>
    simp [Notifier.SendNotification, Notifier.sendToGotify, Notifier.sendToDiscord, hg, hd] <;>
    exact ⟨⟨"", "", 0⟩, trivial⟩
  · by_cases hg : n.gotifyServer ≠ "" ∧ n.gotifyToken ≠ "" <;>
    by_cases hd : n.discordSession = true ∧ n.discordChannelID ≠ "" <;>
    simp [Notifier.SendTestNotification, Notifier.sendToGotify, Notifier.sendToDiscord, hg, hd] <;>
    exact ⟨⟨"", "", 0⟩, trivial⟩

/-! ## Import -/

/-- C9, evaluated where the code departs from it: the store holds two records
with distinct source URLs; two candidates carry the same new URL. The URL map
is built once before the loop, so the second candidate is not skipped: both
are imported and the store ends with two records of one URL. -/
theorem C9_duplicate_within_batch_is_imported :
    (sampleWorld.storage.read.map (fun f => f.RSSUrl)).Nodup ∧
    (Storage.ImportFeeds sampleOracle sampleWorld.storage 0
      [{ sampleFeed with Name := "Vinland Saga", RSSUrl := "https://example.org/vinland/rss" },
       { sampleFeed with Name := "Vinland Saga (again)", RSSUrl := "https://example.org/vinland/rss" }]).1
      = (2, 0) ∧
    (Storage.ImportFeeds sampleOracle sampleWorld.storage 0
      [{ sampleFeed with Name := "Vinland Saga", RSSUrl := "https://example.org/vinland/rss" },
       { sampleFeed with Name := "Vinland Saga (again)", RSSUrl := "https://example.org/vinland/rss" }]).2.1.read.map
        (fun f => f.RSSUrl)
      = ["https://example.org/berserk/rss", "https://example.org/vinland/rss",
         "https://example.org/vinland/rss", "https://example.org/anime/rss"] ∧
    ¬ ((Storage.ImportFeeds sampleOracle sampleWorld.storage 0
      [{ sampleFeed with Name := "Vinland Saga", RSSUrl := "https://example.org/vinland/rss" },
       { sampleFeed with Name := "Vinland Saga (again)", RSSUrl := "https://example.org/vinland/rss" }]).2.1.read.map
        (fun f => f.RSSUrl)).Nodup := by
  refine ⟨by decide, by decide, by decide, by decide⟩

/-- C10: `ImportFeeds` returns `(imported, skipped)` with `imported + skipped`
the number of candidates and `skipped` the number of candidates whose source
URL is that of a record in the store before the call; the store afterwards is
the old records, unchanged, together with exactly `imported` new ones, each
with nil marker, nil `LastChecked`, nil `LastError` and `FailCount` 0. -/
theorem C10_import_counts (o : Oracle) (s : Storage) (clock : Nat) (feeds : List Feed) :
    ∃ news : List Feed,
      (Storage.ImportFeeds o s clock feeds).1.1 = news.length ∧
      (Storage.ImportFeeds o s clock feeds).1.2
        = (feeds.filter (fun c => decide (c.RSSUrl ∈ s.read.map (fun f => f.RSSUrl)))).length ∧
      (Storage.ImportFeeds o s clock feeds).1.1 + (Storage.ImportFeeds o s clock feeds).1.2
        = feeds.length ∧
      (Storage.ImportFeeds o s clock feeds).2.1 = Storage.write (s.read ++ news) ∧
      (Storage.ImportFeeds o s clock feeds).2.1.read.Perm (s.read ++ news) ∧
      ∀ x ∈ news, x.LastChapter = none ∧ x.LastChecked = none ∧ x.LastError = none ∧
        x.FailCount = 0 := by
  obtain ⟨news, clock1, h1, h2, -, h4⟩ :=
    ImportFeeds_loop_spec o (s.read.map (fun f => f.RSSUrl)) feeds s.read 0 0 clock
  refine ⟨news, ?_, ?_, ?_, ?_, ?_, h4⟩
  · simp [Storage.ImportFeeds, h1]
  · simp [Storage.ImportFeeds, h1]
  · simp only [Storage.ImportFeeds, h1]
    simpa using h2
  · simp [Storage.ImportFeeds, h1]
  · simp only [Storage.ImportFeeds, h1]
    exact read_write_perm _

/-- The example of the specification: two candidates, one with the URL of a
stored record and one with a new URL, give `imported = 1` and `skipped = 1`. -/
theorem ImportFeeds_dedup_example :
    (Storage.ImportFeeds sampleOracle sampleWorld.storage 0
      [{ sampleFeed with Name := "Berserk (mirror)" },
       { sampleFeed with Name := "Vinland Saga", RSSUrl := "https://example.org/vinland/rss" }]).1
      = (1, 1) := by
  decide

/-! ## Further auxiliary lemmas -/

/-- An attempt leaves the check counters and the batch time alone, whatever the fetch delivers. -/
theorem checkFeedOnce_stats (o : Oracle) (n : Notifier) (feed : Feed) (w : World) :
    (checkFeedOnce o n feed w).2.stats.TotalChecks = w.stats.TotalChecks ∧
    (checkFeedOnce o n feed w).2.stats.SuccessfulChecks = w.stats.SuccessfulChecks ∧
    (checkFeedOnce o n feed w).2.stats.FailedChecks = w.stats.FailedChecks ∧
    (checkFeedOnce o n feed w).2.stats.LastCheckTime = w.stats.LastCheckTime := by
  rcases hf : attemptError (o.parseURL w.fetches feed.RSSUrl) with _ | e
  · obtain ⟨first, rest, hfetch⟩ := attemptError_eq_none hf
    simp only [checkFeedOnce, hfetch]
    rcases hc : checkFeedOnce.latestItem o feed first rest with _ | item
    · simp
    · rcases hm : feed.LastChapter with _ | m
      · simp
      · by_cases hne : m = item.Title
        · simp [hne]
        · obtain ⟨h1, -, -, h4, -, -, -⟩ := SendNotification_effect n o feed.Name item.Title
            item.Link feed.Type_ feed.AnilistUrl { w with fetches := w.fetches + 1 }
          simp only [hne, ne_eq, not_false_eq_true, if_true]
          generalize n.SendNotification o feed.Name item.Title item.Link feed.Type_ feed.AnilistUrl
            { w with fetches := w.fetches + 1 } = res at h1 h4
          obtain ⟨e, w1⟩ := res
          simp only at h1 h4
          subst h1
          simp [h4]
  · rw [checkFeedOnce_failed o n feed w e hf]
    exact ⟨rfl, rfl, rfl, rfl⟩

/-- The retry loop changes no counter but `SuccessfulChecks`, which it raises
by one exactly when it returns; when it runs out after at least one iteration
the last error is set. -/
theorem CheckFeed_loop_stats (o : Oracle) (n : Notifier) (feed : Feed) (retries : Int) :
    ∀ (k : Nat) (attempt : Int) (lastErr : Option String) (w : World),
      (CheckFeed.loop o n feed retries k attempt lastErr w).2.stats.TotalChecks
        = w.stats.TotalChecks ∧
      (CheckFeed.loop o n feed retries k attempt lastErr w).2.stats.FailedChecks
        = w.stats.FailedChecks ∧
      (CheckFeed.loop o n feed retries k attempt lastErr w).2.stats.LastCheckTime
        = w.stats.LastCheckTime ∧
      (((CheckFeed.loop o n feed retries k attempt lastErr w).1 = LoopExit.returned ∧
        (CheckFeed.loop o n feed retries k attempt lastErr w).2.stats.SuccessfulChecks
          = w.stats.SuccessfulChecks + 1) ∨
       (∃ last, (CheckFeed.loop o n feed retries k attempt lastErr w).1 = LoopExit.exhausted last ∧
        (k ≠ 0 → last ≠ none) ∧ (k = 0 → last = lastErr) ∧
        (CheckFeed.loop o n feed retries k attempt lastErr w).2.stats.SuccessfulChecks
          = w.stats.SuccessfulChecks)) := by
  intro k
  induction k with
  | zero =>
    intro attempt lastErr w
    exact ⟨rfl, rfl, rfl, Or.inr ⟨lastErr, rfl, fun h => absurd rfl h, fun _ => rfl, rfl⟩⟩
  | succ k ih =>
    intro attempt lastErr w
    obtain ⟨h1, h2, h3, h4⟩ := checkFeedOnce_stats o n feed w
    rcases hres : checkFeedOnce o n feed w with ⟨e, w1⟩
    rw [hres] at h1 h2 h3 h4
    simp only at h1 h2 h3 h4
    rcases e with _ | e
    · simp only [CheckFeed.loop, hres]
      exact ⟨h1, h3, h4, Or.inl ⟨trivial, by rw [h2]⟩⟩
    · by_cases hlt : attempt < retries
      · obtain ⟨i1, i2, i3, i4⟩ := ih (attempt + 1) (some e)
          { w1 with sleeps := w1.sleeps ++ [attempt * 1000000000] }
        simp only [CheckFeed.loop, hres, hlt, if_true]
        refine ⟨i1.trans h1, i2.trans h3, i3.trans h4, ?_⟩
        rcases i4 with ⟨j1, j2⟩ | ⟨last, j1, j2, j3, j4⟩
        · exact Or.inl ⟨j1, j2.trans (by rw [h2])⟩
        · refine Or.inr ⟨last, j1, fun _ => ?_, fun h => absurd h (Nat.succ_ne_zero k),
            j4.trans h2⟩
          by_cases hk : k = 0
          · rw [j3 hk]; simp
          · exact j2 hk
      · obtain ⟨i1, i2, i3, i4⟩ := ih (attempt + 1) (some e) w1
        simp only [CheckFeed.loop, hres, hlt, if_false]
        refine ⟨i1.trans h1, i2.trans h3, i3.trans h4, ?_⟩
        rcases i4 with ⟨j1, j2⟩ | ⟨last, j1, j2, j3, j4⟩
        · exact Or.inl ⟨j1, j2.trans (by rw [h2])⟩
        · refine Or.inr ⟨last, j1, fun _ => ?_, fun h => absurd h (Nat.succ_ne_zero k),
            j4.trans h2⟩
          by_cases hk : k = 0
          · rw [j3 hk]; simp
          · exact j2 hk

/-- With a budget of at least one, `CheckFeed` ends without a run-time failure,
counts one check, and counts it as either successful or failed. -/
theorem CheckFeed_counts (o : Oracle) (n : Notifier) (feed : Feed) (retries : Int) (w : World)
    (hn : 1 ≤ retries) :
    (CheckFeed o n feed retries w).1 ≠ CheckResult.nilDereference ∧
    (CheckFeed o n feed retries w).2.stats.TotalChecks = w.stats.TotalChecks + 1 ∧
    (CheckFeed o n feed retries w).2.stats.SuccessfulChecks
        + (CheckFeed o n feed retries w).2.stats.FailedChecks
      = w.stats.SuccessfulChecks + w.stats.FailedChecks + 1 ∧
    (CheckFeed o n feed retries w).2.stats.LastCheckTime = w.stats.LastCheckTime := by
  have hk : retries.toNat ≠ 0 := by omega
  obtain ⟨h1, h2, h3, h4⟩ := CheckFeed_loop_stats o n feed retries retries.toNat 1 none
    { w with stats := { w.stats with TotalChecks := w.stats.TotalChecks + 1 } }
  rcases hres : CheckFeed.loop o n feed retries retries.toNat 1 none
    { w with stats := { w.stats with TotalChecks := w.stats.TotalChecks + 1 } } with ⟨ex, w1⟩
  rw [hres] at h1 h2 h3 h4
  simp only at h1 h2 h3 h4
  rcases h4 with ⟨j1, j2⟩ | ⟨last, j1, j2, -, j4⟩
  · subst j1
    simp only [CheckFeed, hres]
    refine ⟨by simp, h1, ?_, h3⟩
    rw [j2, h2]; ring
  · subst j1
    obtain ⟨e, he⟩ := Option.ne_none_iff_exists'.mp (j2 hk)
    subst he
    simp only [CheckFeed, hres]
    refine ⟨by simp, h1, ?_, h3⟩
    show w1.stats.SuccessfulChecks + (w1.stats.FailedChecks + 1) = _
    rw [j4, h2]; ring

/-- The batch loop checks every feed in turn with budget 3 and sleeps after
each; it is never cut short. -/
theorem CheckAll_loop_spec (o : Oracle) (n : Notifier) :
    ∀ (feeds : List Feed) (w : World),
      (CheckAll.loop o n feeds w).1 = false ∧
      (CheckAll.loop o n feeds w).2
        = feeds.foldl (fun acc feed =>
            { (CheckFeed o n feed 3 acc).2 with
              sleeps := (CheckFeed o n feed 3 acc).2.sleeps ++ [500 * 1000000] }) w ∧
      (CheckAll.loop o n feeds w).2.stats.TotalChecks = w.stats.TotalChecks + feeds.length ∧
      (CheckAll.loop o n feeds w).2.stats.SuccessfulChecks
          + (CheckAll.loop o n feeds w).2.stats.FailedChecks
        = w.stats.SuccessfulChecks + w.stats.FailedChecks + feeds.length ∧
      (CheckAll.loop o n feeds w).2.stats.LastCheckTime = w.stats.LastCheckTime := by
  intro feeds
  induction feeds with
  | nil => intro w; simp [CheckAll.loop]
  | cons feed rest ih =>
    intro w
    obtain ⟨h1, h2, h3, h4⟩ := CheckFeed_counts o n feed 3 w (by decide)
    obtain ⟨i1, i2, i3, i4, i5⟩ := ih
      { (CheckFeed o n feed 3 w).2 with
        sleeps := (CheckFeed o n feed 3 w).2.sleeps ++ [500 * 1000000] }
    have hstep : CheckAll.loop o n (feed :: rest) w
        = CheckAll.loop o n rest
            { (CheckFeed o n feed 3 w).2 with
              sleeps := (CheckFeed o n feed 3 w).2.sleeps ++ [500 * 1000000] } := by
      rcases hres : CheckFeed o n feed 3 w with ⟨r, w1⟩
      rw [hres] at h1
      cases r with
      | ok => simp only [CheckAll.loop, hres]
      | error msg => simp only [CheckAll.loop, hres]
      | nilDereference => exact absurd rfl h1
    rw [hstep]
    refine ⟨i1, ?_, ?_, ?_, ?_⟩
    · rw [i2]; rfl
    · rw [i3]
      show (CheckFeed o n feed 3 w).2.stats.TotalChecks + _ = _
      rw [h2, List.length_cons]; push_cast; ring
    · rw [i4]
      show (CheckFeed o n feed 3 w).2.stats.SuccessfulChecks
        + (CheckFeed o n feed 3 w).2.stats.FailedChecks + _ = _
      rw [h3, List.length_cons]; push_cast; ring
    · rw [i5]; exact h4

/-- One failed iteration of the retry loop, with the sleep it makes. -/
theorem CheckFeed_loop_step_failed_sleep (o : Oracle) (n : Notifier) (feed : Feed) (retries : Int)
    (k : Nat) (attempt : Int) (lastErr : Option String) (w : World) (e : String)
    (he : attemptError (o.parseURL w.fetches feed.RSSUrl) = some e) :
    CheckFeed.loop o n feed retries (k + 1) attempt lastErr w
      = CheckFeed.loop o n feed retries k (attempt + 1) (some e)
          (if attempt < retries then
            { w with fetches := w.fetches + 1, sleeps := w.sleeps ++ [attempt * 1000000000] }
           else { w with fetches := w.fetches + 1 }) := by
  have hstep := checkFeedOnce_failed o n feed w e he
  by_cases hlt : attempt < retries
  · simp only [CheckFeed.loop, hstep, hlt, if_true]
  · simp only [CheckFeed.loop, hstep, hlt, if_false]

/-- The waits `a, a+1, ...` of consecutive attempts, in nanoseconds. -/
theorem waits_cons (a : Int) (m : Nat) :
    a * 1000000000 :: (List.range m).map (fun i : Nat => (a + 1 + (i : Int)) * 1000000000)
      = (List.range (m + 1)).map (fun i : Nat => (a + (i : Int)) * 1000000000) := by
  rw [List.range_succ_eq_map, List.map_cons, List.map_map]
  simp only [Nat.cast_zero, add_zero, List.cons.injEq, true_and]
  apply List.map_congr_left
  intro i _
  simp only [Function.comp, Nat.cast_succ]
  ring

/-- Twice the sum of the waits `1, ..., m` seconds is `m (m + 1)` seconds. -/
theorem waits_sum (m : Nat) :
    2 * ((List.range m).map (fun i : Nat => (1 + (i : Int)) * 1000000000)).sum
      = (m : Int) * (m + 1) * 1000000000 := by
  induction m with
  | zero => simp
  | succ m ih =>
    rw [List.range_succ, List.map_append, List.sum_append, mul_add, ih]
    simp only [List.map_cons, List.map_nil, List.sum_cons, List.sum_nil, add_zero]
    push_cast
    ring

/-- The sleeps of a loop all of whose attempts fail: one after every attempt but the last. -/
theorem CheckFeed_loop_sleeps_all_failed (o : Oracle) (n : Notifier) (feed : Feed) (retries : Int) :
    ∀ (k : Nat) (attempt : Int) (lastErr : Option String) (w : World),
      attempt + (k : Int) = retries + 1 →
      (∀ i, i < k → attemptError (o.parseURL (w.fetches + i) feed.RSSUrl) ≠ none) →
      (CheckFeed.loop o n feed retries k attempt lastErr w).2.sleeps
        = w.sleeps ++ (List.range (k - 1)).map (fun i : Nat => (attempt + (i : Int)) * 1000000000) := by
  intro k
  induction k with
  | zero => intro attempt lastErr w _ _; simp [CheckFeed.loop]
  | succ k ih =>
    intro attempt lastErr w hinv hfail
    obtain ⟨e, he⟩ := Option.ne_none_iff_exists'.mp (hfail 0 (Nat.succ_pos k))
    rw [CheckFeed_loop_step_failed_sleep o n feed retries k attempt lastErr w e he]
    have hrest : ∀ sl, ∀ i, i < k → attemptError (o.parseURL
        (({ w with fetches := w.fetches + 1, sleeps := sl } : World).fetches + i) feed.RSSUrl) ≠ none := by
      intro sl i hi
      have := hfail (i + 1) (Nat.succ_lt_succ hi)
      simpa [Nat.add_assoc, Nat.add_comm 1 i] using this
    have hinv1 : attempt + 1 + (k : Int) = retries + 1 := by push_cast at hinv; omega
    rcases k with _ | k
    · have hlt : ¬ attempt < retries := by push_cast at hinv; omega
      simp [hlt, CheckFeed.loop]
    · have hlt : attempt < retries := by push_cast at hinv; omega
      simp only [hlt, if_true]
      rw [ih (attempt + 1) (some e) _ hinv1 (hrest _)]
      show (w.sleeps ++ [attempt * 1000000000])
          ++ (List.range k).map (fun i : Nat => (attempt + 1 + (i : Int)) * 1000000000) = _
      rw [List.append_assoc, List.singleton_append, waits_cons]
      rfl

/-- The sleeps of a loop whose first `k` attempts fail and whose next one succeeds. -/
theorem CheckFeed_loop_sleeps_success (o : Oracle) (n : Notifier) (feed : Feed) (retries : Int)
    (m : Nat) :
    ∀ (k : Nat) (attempt : Int) (lastErr : Option String) (w : World),
      attempt + ((k + m + 1 : Nat) : Int) = retries + 1 →
      (∀ i, i < k → attemptError (o.parseURL (w.fetches + i) feed.RSSUrl) ≠ none) →
      attemptError (o.parseURL (w.fetches + k) feed.RSSUrl) = none →
      (CheckFeed.loop o n feed retries (k + m + 1) attempt lastErr w).2.sleeps
        = w.sleeps ++ (List.range k).map (fun i : Nat => (attempt + (i : Int)) * 1000000000) := by
  intro k
  induction k with
  | zero =>
    intro attempt lastErr w _ _ hok
    obtain ⟨first, rest, hfetch⟩ := attemptError_eq_none hok
    rw [CheckFeed_loop_step_ok o n feed retries (0 + m) attempt lastErr w hok]
    simpa using (checkFeedOnce_fetched o n feed w first rest hfetch).2.2.2.2.1
  | succ k ih =>
    intro attempt lastErr w hinv hfail hok
    obtain ⟨e, he⟩ := Option.ne_none_iff_exists'.mp (hfail 0 (Nat.succ_pos k))
    have hk : k + 1 + m + 1 = (k + m + 1) + 1 := by omega
    rw [hk, CheckFeed_loop_step_failed_sleep o n feed retries (k + m + 1) attempt lastErr w e he]
    have hlt : attempt < retries := by push_cast at hinv; omega
    simp only [hlt, if_true]
    have hrest : ∀ i, i < k → attemptError (o.parseURL
        (({ w with fetches := w.fetches + 1,
                   sleeps := w.sleeps ++ [attempt * 1000000000] } : World).fetches + i)
          feed.RSSUrl) ≠ none := by
      intro i hi
      have := hfail (i + 1) (Nat.succ_lt_succ hi)
      simpa [Nat.add_assoc, Nat.add_comm 1 i] using this
    have hok1 : attemptError (o.parseURL
        (({ w with fetches := w.fetches + 1,
                   sleeps := w.sleeps ++ [attempt * 1000000000] } : World).fetches + k)
          feed.RSSUrl) = none := by
      simpa [Nat.add_assoc, Nat.add_comm 1 k] using hok
    have hinv1 : attempt + 1 + ((k + m + 1 : Nat) : Int) = retries + 1 := by
      push_cast at hinv ⊢; omega
    rw [ih (attempt + 1) (some e) _ hinv1 hrest hok1]
    show (w.sleeps ++ [attempt * 1000000000])
        ++ (List.range k).map (fun i : Nat => (attempt + 1 + (i : Int)) * 1000000000) = _
    rw [List.append_assoc, List.singleton_append, waits_cons]

/-- The update loop finds nothing in a list without the id and leaves it as it is. -/
theorem UpdateFeed_loop_absent (id : String) (updates : Updates) :
    ∀ feeds : List Feed, (∀ f ∈ feeds, f.ID ≠ id) →
      Storage.UpdateFeed.loop id updates feeds = (none, feeds) := by
  intro feeds
  induction feeds with
  | nil => intro _; rfl
  | cons x xs ih =>
    intro h
    have hx : x.ID ≠ id := h x (List.mem_cons_self _ _)
    have hxs := ih (fun f hf => h f (List.mem_cons_of_mem _ hf))
    simp [Storage.UpdateFeed.loop, hx, hxs]

/-- The update loop finds a feed in a list that has the id. -/
theorem UpdateFeed_loop_present (id : String) (updates : Updates) :
    ∀ feeds : List Feed, (∃ f ∈ feeds, f.ID = id) →
      ∃ updated, (Storage.UpdateFeed.loop id updates feeds).1 = some updated := by
  intro feeds
  induction feeds with
  | nil => rintro ⟨f, hf, -⟩; cases hf
  | cons x xs ih =>
    rintro ⟨f, hf, hid⟩
    by_cases hx : x.ID = id
    · exact ⟨Storage.UpdateFeed.apply updates x, by simp [Storage.UpdateFeed.loop, hx]⟩
    · rcases List.mem_cons.mp hf with rfl | hf
      · exact absurd hid hx
      · obtain ⟨u, hu⟩ := ih ⟨f, hf, hid⟩
        exact ⟨u, by simp [Storage.UpdateFeed.loop, hx, hu]⟩

/-- What `SendTestNotification` returns and which parts of the world it leaves alone. -/
theorem SendTestNotification_effect (n : Notifier) (o : Oracle)
    (feedName chapter link feedType : String) (anilistUrl : Option String) (w : World) :
    (n.SendTestNotification o feedName chapter link feedType anilistUrl w).1 = none ∧
    (n.SendTestNotification o feedName chapter link feedType anilistUrl w).2.storage = w.storage ∧
    (n.SendTestNotification o feedName chapter link feedType anilistUrl w).2.stats = w.stats := by
  unfold Notifier.SendTestNotification Notifier.sendToGotify Notifier.sendToDiscord
  refine ⟨rfl, ?_, ?_⟩ <;> dsimp only <;> split_ifs <;> rfl

/-- The value of a decimal digit character. -/
theorem digitChar_value (k : Nat) (hk : k < 10) : (Nat.digitChar k).toNat - 48 = k := by
  interval_cases k <;> rfl

/-- No decimal digit character is the minus sign. -/
theorem digitChar_ne_minus (k : Nat) (hk : k < 10) : Nat.digitChar k ≠ '-' := by
  interval_cases k <;> decide

/-- Reading back the digits that `toDigitsCore` puts in front of `ds`. -/
theorem toDigitsCore_value :
    ∀ (fuel n : Nat) (ds : List Char), n < fuel →
      (Nat.toDigitsCore 10 fuel n ds).foldl (fun acc c => 10 * acc + (c.toNat - 48)) 0
        = ds.foldl (fun acc c => 10 * acc + (c.toNat - 48)) n := by
  intro fuel
  induction fuel with
  | zero => intro n ds h; omega
  | succ fuel ih =>
    intro n ds h
    unfold Nat.toDigitsCore
    by_cases h0 : n / 10 = 0
    · simp only [h0, if_true, List.foldl_cons, Nat.mul_zero, Nat.zero_add]
      rw [digitChar_value _ (Nat.mod_lt _ (by decide))]
      congr 1
      omega
    · simp only [h0, if_false]
      rw [ih (n / 10) _ (by omega)]
      simp only [List.foldl_cons]
      rw [digitChar_value _ (Nat.mod_lt _ (by decide))]
      congr 1
      omega

/-- The digit list only grows. -/
theorem toDigitsCore_length (b : Nat) :
    ∀ (fuel n : Nat) (ds : List Char), ds.length ≤ (Nat.toDigitsCore b fuel n ds).length := by
  intro fuel
  induction fuel with
  | zero => intro n ds; simp [Nat.toDigitsCore]
  | succ fuel ih =>
    intro n ds
    unfold Nat.toDigitsCore
    dsimp only
    split_ifs
    · simp
    · exact Nat.le_trans (by simp) (ih _ _)

/-- No minus sign among the digits. -/
theorem toDigitsCore_no_minus :
    ∀ (fuel n : Nat) (ds : List Char), '-' ∉ ds → '-' ∉ Nat.toDigitsCore 10 fuel n ds := by
  intro fuel
  induction fuel with
  | zero => intro n ds h; simpa [Nat.toDigitsCore] using h
  | succ fuel ih =>
    intro n ds h
    have hd : '-' ∉ Nat.digitChar (n % 10) :: ds := by
      intro hm
      rcases List.mem_cons.mp hm with h1 | h1
      · exact digitChar_ne_minus _ (Nat.mod_lt _ (by decide)) h1.symm
      · exact h h1
    unfold Nat.toDigitsCore
    dsimp only
    split_ifs
    · exact hd
    · exact ih _ _ hd

/-- Two naturals with the same decimal numeral are equal. -/
theorem natRepr_injective : Function.Injective Nat.repr := by
  intro a b h
  have h1 : Nat.toDigits 10 a = Nat.toDigits 10 b := by
    have := congrArg String.data h
    simpa [Nat.repr, List.asString] using this
  have ha := toDigitsCore_value (a + 1) a [] (by omega)
  have hb := toDigitsCore_value (b + 1) b [] (by omega)
  unfold Nat.toDigits at h1
  rw [h1] at ha
  simpa using ha.symm.trans hb

/-- The numeral of a natural has at least one digit. -/
theorem natRepr_data_ne_nil (a : Nat) : (Nat.repr a).data ≠ [] := by
  have h := toDigitsCore_length 10 a (a / 10) [Nat.digitChar (a % 10)]
  simp only [Nat.repr, List.asString, Nat.toDigits]
  unfold Nat.toDigitsCore
  dsimp only
  split_ifs
  · simp
  · intro hnil
    rw [hnil] at h
    simp at h

/-- The numeral of a natural has no minus sign. -/
theorem natRepr_no_minus (a : Nat) : '-' ∉ (Nat.repr a).data := by
  simpa [Nat.repr, List.asString, Nat.toDigits] using toDigitsCore_no_minus (a + 1) a [] (by simp)

/-- Two integers with the same decimal numeral are equal. -/
theorem sprintfD_injective : Function.Injective sprintfD := by
  intro a b h
  unfold sprintfD at h
  cases a with
  | ofNat m =>
    cases b with
    | ofNat k =>
      have : Nat.repr m = Nat.repr k := h
      rw [natRepr_injective this]
    | negSucc k =>
      exfalso
      have h1 : Nat.repr m = "-" ++ Nat.repr (k + 1) := h
      have h2 := natRepr_no_minus m
      rw [h1] at h2
      exact h2 (by simp [String.data_append])
  | negSucc m =>
    cases b with
    | ofNat k =>
      exfalso
      have h1 : "-" ++ Nat.repr (m + 1) = Nat.repr k := h
      have h2 := natRepr_no_minus k
      rw [← h1] at h2
      exact h2 (by simp [String.data_append])
    | negSucc k =>
      have h1 : "-" ++ Nat.repr (m + 1) = "-" ++ Nat.repr (k + 1) := h
      have h2 : Nat.repr (m + 1) = Nat.repr (k + 1) := by
        have := congrArg String.data h1
        simp only [String.data_append, List.append_cancel_left_eq] at this
        exact String.ext this
      have := natRepr_injective h2
      have hmk : m = k := by omega
      rw [hmk]

/-- A decimal numeral is never the empty string. -/
theorem sprintfD_data_ne_nil (a : Int) : (sprintfD a).data ≠ [] := by
  unfold sprintfD
  cases a with
  | ofNat m => exact natRepr_data_ne_nil m
  | negSucc m =>
    show ("-" ++ Nat.repr (m + 1)).data ≠ []
    simp [String.data_append]

/-- A decimal numeral is not the empty string. -/
theorem sprintfD_ne_empty (a : Int) : sprintfD a ≠ "" := by
  intro h
  exact sprintfD_data_ne_nil a (by rw [h])

/-- Numerals of equal length followed by numerals: equal as strings only if equal part by part. -/
theorem stamp_count_inj (digits : Nat) (a b i k : Int)
    (ha : (sprintfD a).length = digits) (hb : (sprintfD b).length = digits)
    (h : sprintfD a ++ sprintfD i = sprintfD b ++ sprintfD k) : a = b ∧ i = k := by
  have hd := congrArg String.data h
  simp only [String.data_append] at hd
  have hlen : (sprintfD a).data.length = (sprintfD b).data.length := by
    have h1 : (sprintfD a).data.length = digits := ha
    have h2 : (sprintfD b).data.length = digits := hb
    rw [h1, h2]
  obtain ⟨h1, h2⟩ := List.append_inj hd hlen
  exact ⟨sprintfD_injective (String.ext h1), sprintfD_injective (String.ext h2)⟩

/-- A numeral is not a numeral of the same length followed by another numeral. -/
theorem stamp_ne_stamp_count (digits : Nat) (a b i : Int)
    (ha : (sprintfD a).length = digits) (hb : (sprintfD b).length = digits) :
    sprintfD a ≠ sprintfD b ++ sprintfD i := by
  intro h
  have hl := congrArg String.length h
  rw [String.length_append, ha, hb] at hl
  have hpos : 0 < (sprintfD i).length := by
    have := sprintfD_data_ne_nil i
    exact List.length_pos.mpr this
  omega

/-- The id of the record `ImportFeeds` inserts. -/
theorem fresh_ID (o : Oracle) (feed : Feed) (imported : Int) (clock : Nat) :
    (Storage.ImportFeeds.fresh o feed imported clock).ID
      = sprintfD (o.now clock) ++ sprintfD imported := by
  unfold Storage.ImportFeeds.fresh
  dsimp only
  split_ifs <;> rfl

/-- A reading that precedes the calls from `c` on precedes those from later on. -/
theorem Precedes_mono (o : Oracle) (c d : Nat) (t : Int) (hcd : c ≤ d) (h : Precedes o c t) :
    Precedes o d t :=
  fun c' hc' hstart => h c' (Nat.le_trans hcd hc') hstart

/-- A reading already made precedes every later call. -/
theorem Precedes_reading (o : Oracle) (c j : Nat) (hj : j < c) : Precedes o c (o.now j) :=
  fun _ hc' hstart => hstart j (Nat.lt_of_lt_of_le hj hc')

/-- The id invariant does not depend on the order of the feeds. -/
theorem IdsStamped_perm (o : Oracle) (digits c : Nat) (l1 l2 : List Feed) (hp : l1.Perm l2)
    (h : IdsStamped o digits c l2) : IdsStamped o digits c l1 :=
  ⟨((hp.map _).nodup_iff).mpr h.1, fun f hf => h.2 f (hp.mem_iff.mp hf)⟩

/-- A stamped id of an earlier reading differs from a fresh numeral. -/
theorem stamped_ne_of_lt (digits : Nat) (t r : Int) (id : String)
    (ht : (sprintfD t).length = digits) (hr : (sprintfD r).length = digits)
    (hst : StampedAt t id) (hlt : t < r) :
    id ≠ sprintfD r ∧ ∀ i, id ≠ sprintfD r ++ sprintfD i := by
  rcases hst with h | ⟨k, h⟩
  · subst h
    refine ⟨fun he => ?_, fun i => stamp_ne_stamp_count digits t r i ht hr⟩
    have := sprintfD_injective he
    omega
  · subst h
    refine ⟨fun he => stamp_ne_stamp_count digits r t k hr ht he.symm, fun i he => ?_⟩
    have := (stamp_count_inj digits t r k i ht hr he).1
    omega

/-- Method `AddFeed` keeps the ids distinct and stamped. -/
theorem AddFeed_IdsStamped (o : Oracle) (digits : Nat) (s : Storage) (c : Nat) (feed : Feed)
    (hdigits : ∀ k, (sprintfD (o.now k)).length = digits)
    (hstart : ∀ j, j < c → o.now j < o.now c)
    (h : IdsStamped o digits c s.read) :
    IdsStamped o digits (s.AddFeed o c feed).2.2 (s.AddFeed o c feed).2.1.read := by
  have hnew : ∀ f ∈ s.read, f.ID ≠ sprintfD (o.now c) := by
    intro f hf
    obtain ⟨t, ht, hst, hp⟩ := h.2 f hf
    exact (stamped_ne_of_lt digits t (o.now c) f.ID ht (hdigits c) hst
      (hp c (Nat.le_refl c) hstart)).1
  have hres : ∃ nf : Feed, nf.ID = sprintfD (o.now c) ∧
      (s.AddFeed o c feed).2.1 = Storage.write (s.read ++ [nf]) ∧
      (s.AddFeed o c feed).2.2 = c + 2 := by
    unfold Storage.AddFeed
    dsimp only
    split_ifs
    · exact ⟨_, rfl, rfl, rfl⟩
    · exact ⟨_, rfl, rfl, rfl⟩
  obtain ⟨nf, hid, hst, hc⟩ := hres
  rw [hst, hc]
  apply IdsStamped_perm o digits (c + 2) _ _ (read_write_perm _)
  constructor
  · rw [List.map_append, List.map_singleton]
    apply (List.perm_append_singleton _ _).nodup_iff.mpr
    rw [List.nodup_cons]
    refine ⟨?_, h.1⟩
    intro hm
    obtain ⟨f, hf, hfe⟩ := List.mem_map.mp hm
    exact hnew f hf (hfe.trans hid)
  · intro f hf
    rcases List.mem_append.mp hf with hf | hf
    · obtain ⟨t, ht, hst, hp⟩ := h.2 f hf
      exact ⟨t, ht, hst, Precedes_mono o c (c + 2) t (by omega) hp⟩
    · have : f = nf := by simpa using hf
      subst this
      exact ⟨o.now c, hdigits c, Or.inl hid, Precedes_reading o (c + 2) c (by omega)⟩

/-- The import loop keeps the ids distinct: every record is either one that
was there at the start of the call or one inserted by it, whose id joins a
reading of the call with a smaller count. -/
theorem ImportFeeds_loop_ids (o : Oracle) (digits : Nat) (existingUrls : List String) (c0 : Nat)
    (hmono : Monotone o.now)
    (hdigits : ∀ k, (sprintfD (o.now k)).length = digits) :
    ∀ (feeds data : List Feed) (imported skipped : Int) (clock : Nat),
      c0 ≤ clock →
      (data.map (fun f => f.ID)).Nodup →
      (∀ f ∈ data,
        (∃ t, (sprintfD t).length = digits ∧ StampedAt t f.ID ∧ Precedes o c0 t ∧ t < o.now c0) ∨
        (∃ j i, j < clock ∧ i < imported ∧ f.ID = sprintfD (o.now j) ++ sprintfD i)) →
      c0 ≤ (Storage.ImportFeeds.loop o existingUrls feeds data imported skipped clock).2.2.2 ∧
      ((Storage.ImportFeeds.loop o existingUrls feeds data imported skipped clock).1.map
        (fun f => f.ID)).Nodup ∧
      (∀ f ∈ (Storage.ImportFeeds.loop o existingUrls feeds data imported skipped clock).1,
        (∃ t, (sprintfD t).length = digits ∧ StampedAt t f.ID ∧ Precedes o c0 t ∧ t < o.now c0) ∨
        (∃ j, j < (Storage.ImportFeeds.loop o existingUrls feeds data imported skipped
            clock).2.2.2 ∧ ∃ i, f.ID = sprintfD (o.now j) ++ sprintfD i)) := by
  intro feeds
  induction feeds with
  | nil =>
    intro data imported skipped clock hc hnd hall
    refine ⟨hc, hnd, fun f hf => ?_⟩
    rcases hall f hf with h | ⟨j, i, hj, -, hid⟩
    · exact Or.inl h
    · exact Or.inr ⟨j, hj, i, hid⟩
  | cons cand rest ih =>
    intro data imported skipped clock hc hnd hall
    by_cases hskip : cand.RSSUrl ∈ existingUrls
    · simp only [Storage.ImportFeeds.loop, hskip, if_true]
      exact ih data imported (skipped + 1) clock hc hnd hall
    · simp only [Storage.ImportFeeds.loop, hskip, if_false]
      apply ih (data ++ [Storage.ImportFeeds.fresh o cand imported clock]) (imported + 1) skipped
        (clock + 2) (by omega)
      · rw [List.map_append, List.map_singleton]
        apply (List.perm_append_singleton _ _).nodup_iff.mpr
        rw [List.nodup_cons]
        refine ⟨?_, hnd⟩
        intro hm
        obtain ⟨f, hf, hfe⟩ := List.mem_map.mp hm
        rw [fresh_ID] at hfe
        rcases hall f hf with ⟨t, ht, hst, -, hlt⟩ | ⟨j, i, -, hi, hid⟩
        · have hle : o.now c0 ≤ o.now clock := hmono hc
          exact (stamped_ne_of_lt digits t (o.now clock) f.ID ht (hdigits clock) hst
            (by omega)).2 imported hfe
        · rw [hid] at hfe
          have := (stamp_count_inj digits _ _ i imported (hdigits j) (hdigits clock) hfe).2
          omega
      · intro f hf
        rcases List.mem_append.mp hf with hf | hf
        · rcases hall f hf with h | ⟨j, i, hj, hi, hid⟩
          · exact Or.inl h
          · exact Or.inr ⟨j, i, by omega, by omega, hid⟩
        · have : f = Storage.ImportFeeds.fresh o cand imported clock := by simpa using hf
          subst this
          exact Or.inr ⟨clock, imported, by omega, by omega, fresh_ID o cand imported clock⟩

/-- Method `ImportFeeds` keeps the ids distinct and stamped. -/
theorem ImportFeeds_IdsStamped (o : Oracle) (digits : Nat) (s : Storage) (c : Nat)
    (feeds : List Feed)
    (hmono : Monotone o.now)
    (hdigits : ∀ k, (sprintfD (o.now k)).length = digits)
    (hstart : ∀ j, j < c → o.now j < o.now c)
    (h : IdsStamped o digits c s.read) :
    IdsStamped o digits (Storage.ImportFeeds o s c feeds).2.2
      (Storage.ImportFeeds o s c feeds).2.1.read := by
  obtain ⟨h1, h2, h3⟩ := ImportFeeds_loop_ids o digits (s.read.map (fun f => f.RSSUrl)) c hmono
    hdigits feeds s.read 0 0 c (Nat.le_refl c) h.1 (fun f hf => by
      obtain ⟨t, ht, hst, hp⟩ := h.2 f hf
      exact Or.inl ⟨t, ht, hst, hp, hp c (Nat.le_refl c) hstart⟩)
  rcases hl : Storage.ImportFeeds.loop o (s.read.map (fun f => f.RSSUrl)) feeds s.read 0 0 c
    with ⟨data, imported, skipped, clock1⟩
  rw [hl] at h1 h2 h3
  simp only at h1 h2 h3
  have hres : (Storage.ImportFeeds o s c feeds).2 = (Storage.write data, clock1) := by
    simp only [Storage.ImportFeeds, hl]
  rw [hres]
  apply IdsStamped_perm o digits clock1 _ _ (read_write_perm _)
  refine ⟨h2, fun f hf => ?_⟩
  rcases h3 f hf with ⟨t, ht, hst, hp, -⟩ | ⟨j, hj, i, hid⟩
  · exact ⟨t, ht, hst, Precedes_mono o c clock1 t h1 hp⟩
  · exact ⟨o.now j, hdigits j, Or.inr ⟨i, hid⟩, Precedes_reading o clock1 j hj⟩

/-- Every sequence of calls keeps the ids distinct and stamped. -/
theorem runOps_IdsStamped (o : Oracle) (digits : Nat)
    (hmono : Monotone o.now)
    (hdigits : ∀ k, (sprintfD (o.now k)).length = digits) :
    ∀ (ops : List StoreOp) (s : Storage) (c : Nat),
      ClockAdvances o ops s c → IdsStamped o digits c s.read →
      IdsStamped o digits (runOps o ops s c).2 (runOps o ops s c).1.read := by
  intro ops
  induction ops with
  | nil => intro s c _ h; exact h
  | cons op ops ih =>
    intro s c hadv h
    obtain ⟨hstart, hrest⟩ := hadv
    show IdsStamped o digits (runOps o ops (op.run o s c).1 (op.run o s c).2).2
      (runOps o ops (op.run o s c).1 (op.run o s c).2).1.read
    apply ih _ _ hrest
    cases op with
    | add feed => exact AddFeed_IdsStamped o digits s c feed hdigits hstart h
    | importFeeds feeds => exact ImportFeeds_IdsStamped o digits s c feeds hmono hdigits hstart h

/-- The key set of the category map: without repetition, and holding exactly
the keys it started with and the normalized categories of the feeds. -/
theorem categoryMap_spec :
    ∀ (feeds : List Feed) (keys : List String), keys.Nodup →
      (Storage.GetCategories.categoryMap feeds keys).Nodup ∧
      ∀ c, c ∈ Storage.GetCategories.categoryMap feeds keys ↔
        c ∈ keys ∨ ∃ f ∈ feeds, (if f.Category = "" then "Uncategorized" else f.Category) = c := by
  intro feeds
  induction feeds with
  | nil => intro keys h; exact ⟨h, fun c => by simp [Storage.GetCategories.categoryMap]⟩
  | cons x xs ih =>
    intro keys h
    by_cases hin : (if x.Category = "" then "Uncategorized" else x.Category) ∈ keys
    · obtain ⟨h1, h2⟩ := ih keys h
      simp only [Storage.GetCategories.categoryMap, hin, if_true]
      refine ⟨h1, fun c => ?_⟩
      rw [h2 c]
      constructor
      · rintro (hc | ⟨f, hf, hfc⟩)
        · exact Or.inl hc
        · exact Or.inr ⟨f, List.mem_cons_of_mem _ hf, hfc⟩
      · rintro (hc | ⟨f, hf, hfc⟩)
        · exact Or.inl hc
        · rcases List.mem_cons.mp hf with rfl | hf
          · exact Or.inl (hfc ▸ hin)
          · exact Or.inr ⟨f, hf, hfc⟩
    · have hnd : (keys ++ [if x.Category = "" then "Uncategorized" else x.Category]).Nodup := by
        apply (List.perm_append_singleton _ _).nodup_iff.mpr
        exact List.nodup_cons.mpr ⟨hin, h⟩
      obtain ⟨h1, h2⟩ := ih _ hnd
      simp only [Storage.GetCategories.categoryMap, hin, if_false]
      refine ⟨h1, fun c => ?_⟩
      rw [h2 c]
      constructor
      · rintro (hc | ⟨f, hf, hfc⟩)
        · rcases List.mem_append.mp hc with hc | hc
          · exact Or.inl hc
          · exact Or.inr ⟨x, List.mem_cons_self _ _, (List.mem_singleton.mp hc).symm⟩
        · exact Or.inr ⟨f, List.mem_cons_of_mem _ hf, hfc⟩
      · rintro (hc | ⟨f, hf, hfc⟩)
        · exact Or.inl (List.mem_append_left _ hc)
        · rcases List.mem_cons.mp hf with rfl | hf
          · exact Or.inl (List.mem_append_right _ (by simp [hfc]))
          · exact Or.inr ⟨f, hf, hfc⟩

/-- A string has no bytes exactly when it is the empty string. -/
theorem utf8Bytes_length_pos (s : String) : 0 < (utf8Bytes s).length ↔ s ≠ "" := by
  rcases s with ⟨cs⟩
  cases cs with
  | nil => simp [utf8Bytes]
  | cons c cs =>
    have hc : 0 < c.utf8Size := Char.utf8Size_pos c
    constructor
    · intro _ h
      exact absurd (congrArg String.data h) (by simp)
    · intro _
      simp only [utf8Bytes, String.toList, List.flatMap_cons, List.length_append,
        String.length_utf8EncodeChar]
      omega

/-- The search loop answers whether the pattern stands at one of the offsets it visits. -/
theorem findSubstring_loop_spec (l sub : List UInt8) :
    ∀ (k i : Nat), findSubstring.loop l sub k i = true ↔
      ∃ j, i ≤ j ∧ j < i + k ∧ (l.drop j).take sub.length = sub := by
  intro k
  induction k with
  | zero =>
    intro i
    simp only [findSubstring.loop, Bool.false_eq_true, false_iff]
    rintro ⟨j, h1, h2, -⟩
    omega
  | succ k ih =>
    intro i
    unfold findSubstring.loop
    by_cases h : (l.drop i).take sub.length = sub
    · simp only [h, if_true, true_iff]
      exact ⟨i, Nat.le_refl i, by omega, h⟩
    · simp only [h, if_false]
      rw [ih (i + 1)]
      constructor
      · rintro ⟨j, h1, h2, h3⟩
        exact ⟨j, by omega, by omega, h3⟩
      · rintro ⟨j, h1, h2, h3⟩
        have hne : j ≠ i := fun he => h (he ▸ h3)
        exact ⟨j, by omega, by omega, h3⟩

/-- A list occurs inside another exactly when it stands at some offset that leaves room for it. -/
theorem infix_iff_offset (l sub : List UInt8) :
    sub <:+: l ↔ ∃ j, j < l.length + 1 - sub.length ∧ (l.drop j).take sub.length = sub := by
  constructor
  · rintro ⟨pre, post, h⟩
    refine ⟨pre.length, ?_, ?_⟩
    · rw [← h]; simp only [List.length_append]; omega
    · rw [← h, List.append_assoc, List.drop_left, List.take_left]
  · rintro ⟨j, hj, h⟩
    refine ⟨l.take j, l.drop (j + sub.length), ?_⟩
    have h1 : l.drop (j + sub.length) = (l.drop j).drop sub.length := by
      rw [List.drop_drop, Nat.add_comm]
    have e1 : sub ++ (l.drop j).drop sub.length = l.drop j := by
      have := List.take_append_drop sub.length (l.drop j)
      rwa [h] at this
    rw [h1, List.append_assoc, e1, List.take_append_drop]

/-- The function `findSubstring` is a correct substring test on the lower-cased bytes. -/
theorem findSubstring_iff (s substr : String) :
    findSubstring s substr = true ↔ utf8Bytes (toLower substr) <:+: utf8Bytes (toLower s) := by
  unfold findSubstring
  dsimp only
  rw [findSubstring_loop_spec, infix_iff_offset]
  constructor
  · rintro ⟨j, -, h2, h3⟩
    exact ⟨j, by omega, h3⟩
  · rintro ⟨j, h2, h3⟩
    exact ⟨j, Nat.zero_le j, by omega, h3⟩

/-- The function `contains`: both strings non-empty and the lower-cased pattern found. -/
theorem contains_iff (s substr : String) :
    contains s substr = true ↔
      s ≠ "" ∧ substr ≠ "" ∧ utf8Bytes (toLower substr) <:+: utf8Bytes (toLower s) := by
  unfold contains
  simp only [Bool.and_eq_true, Bool.or_eq_true, decide_eq_true_eq, gt_iff_lt,
    utf8Bytes_length_pos, findSubstring_iff]
  constructor
  · rintro ⟨⟨h1, h2⟩, h3 | h3⟩
    · exact ⟨h1, h2, h3 ▸ List.infix_refl _⟩
    · exact ⟨h1, h2, h3⟩
  · rintro ⟨h1, h2, h3⟩
    exact ⟨⟨h1, h2⟩, Or.inr h3⟩

/-- An ASCII character has value at most 127 as a 32-bit number. -/
theorem ascii_val_le (c : Char) (h : c.toNat ≤ 127) : c.val ≤ 0x7f := h

/-- An ASCII character takes one byte. -/
theorem ascii_utf8Size (c : Char) (h : c.toNat ≤ 127) : c.utf8Size = 1 := by
  have hv := ascii_val_le c h
  simp [Char.utf8Size, hv]

/-- The one byte of an ASCII character. -/
theorem ascii_utf8EncodeChar (c : Char) (h : c.toNat ≤ 127) :
    String.utf8EncodeChar c = [c.val.toUInt8] := by
  have hv := ascii_val_le c h
  simp [String.utf8EncodeChar, hv]

/-- The byte of an ASCII character gives the character back. -/
theorem ascii_decode (c : Char) (h : c.toNat ≤ 127) : Char.ofNat c.val.toUInt8.toNat = c := by
  have h1 : c.val.toUInt8.toNat = c.toNat := by
    show c.val.toNat % 256 = c.val.toNat
    have : c.val.toNat ≤ 127 := h
    omega
  rw [h1]
  exact Char.ofNat_toNat c

/-- Lower-casing keeps an ASCII character ASCII. -/
theorem asciiLower_ascii (c : Char) (h : c.toNat ≤ 127) : (asciiLower c).toNat ≤ 127 := by
  unfold asciiLower
  split_ifs with hc
  · have hZ : c.toNat ≤ 90 := hc.2
    generalize hn : c.toNat = m at hZ
    interval_cases m <;> decide
  · exact h

/-- Writing at the position right after a prefix. -/
theorem set_after_prefix (pre zs : List Char) (z x : Char) :
    (pre ++ z :: zs).set pre.length x = pre ++ x :: zs := by
  induction pre with
  | nil => rfl
  | cons p ps ih => simp [List.set, ih]

/-- On ASCII characters the loop of `toLower` writes the lower-cased characters
one after the other. -/
theorem toLower_loop_ascii :
    ∀ (cs pre zs : List Char), (∀ c ∈ cs, c.toNat ≤ 127) → cs.length ≤ zs.length →
      toLower.loop cs pre.length (pre ++ zs) = pre ++ cs.map asciiLower ++ zs.drop cs.length := by
  intro cs
  induction cs with
  | nil => intro pre zs _ _; simp [toLower.loop]
  | cons r rest ih =>
    intro pre zs hascii hlen
    rcases zs with _ | ⟨z, zs⟩
    · simp at hlen
    · have hr : r.utf8Size = 1 := ascii_utf8Size r (hascii r (List.mem_cons_self _ _))
      have hrest : ∀ c ∈ rest, c.toNat ≤ 127 := fun c hc => hascii c (List.mem_cons_of_mem _ hc)
      have hlen1 : rest.length ≤ zs.length := by simpa using hlen
      have hstep := ih (pre ++ [asciiLower r]) zs hrest hlen1
      unfold toLower.loop
      rw [hr, set_after_prefix]
      have e1 : pre.length + 1 = (pre ++ [asciiLower r]).length := by simp
      have e2 : pre ++ asciiLower r :: zs = (pre ++ [asciiLower r]) ++ zs := by simp
      show toLower.loop rest (pre.length + 1) (pre ++ asciiLower r :: zs) = _
      rw [e1, e2, hstep]
      simp

/-- The bytes of an ASCII string, one per character. -/
theorem utf8Bytes_ascii (cs : List Char) (h : ∀ c ∈ cs, c.toNat ≤ 127) :
    utf8Bytes (String.mk cs) = cs.map (fun c => c.val.toUInt8) := by
  unfold utf8Bytes
  show cs.flatMap String.utf8EncodeChar = _
  induction cs with
  | nil => rfl
  | cons c cs ih =>
    rw [List.flatMap_cons, ascii_utf8EncodeChar c (h c (List.mem_cons_self _ _)),
      ih (fun d hd => h d (List.mem_cons_of_mem _ hd))]
    rfl

/-- On an ASCII string `toLower` lower-cases character by character. -/
theorem toLower_ascii (s : String) (h : IsASCII s) :
    toLower s = String.mk (s.toList.map asciiLower) := by
  have hb : (utf8Bytes s).length = s.toList.length := by
    have := utf8Bytes_ascii s.toList h
    have hs : String.mk s.toList = s := rfl
    rw [hs] at this
    rw [this, List.length_map]
  unfold toLower
  rw [hb]
  have := toLower_loop_ascii s.toList [] (List.replicate s.toList.length (Char.ofNat 0)) h
    (by simp)
  simp only [List.length_nil, List.nil_append] at this
  rw [this]
  simp

/-- Among ASCII character lists, one occurs in the other exactly when its bytes
occur in the bytes of the other. -/
theorem ascii_bytes_infix (a b : List Char) (ha : ∀ c ∈ a, c.toNat ≤ 127)
    (hb : ∀ c ∈ b, c.toNat ≤ 127) :
    a.map (fun c => c.val.toUInt8) <:+: b.map (fun c => c.val.toUInt8) ↔ a <:+: b := by
  have hdec : ∀ l : List Char, (∀ c ∈ l, c.toNat ≤ 127) →
      (l.map (fun c => c.val.toUInt8)).map (fun x => Char.ofNat x.toNat) = l := by
    intro l hl
    rw [List.map_map]
    conv_rhs => rw [← List.map_id l]
    apply List.map_congr_left
    intro c hc
    exact ascii_decode c (hl c hc)
  constructor
  · intro h
    have := h.map (fun x : UInt8 => Char.ofNat x.toNat)
    rwa [hdec a ha, hdec b hb] at this
  · intro h
    exact h.map _

/-- On ASCII strings and a non-empty query, `contains` holds exactly when the
string contains the query, the case of letters ignored. -/
theorem contains_ascii (s q : String) (hs : IsASCII s) (hq : IsASCII q) (hne : q ≠ "") :
    contains s q = true ↔ ContainsIgnoringCase asciiLower s q := by
  have hls : ∀ c ∈ s.toList.map asciiLower, c.toNat ≤ 127 := by
    intro c hc
    obtain ⟨d, hd, rfl⟩ := List.mem_map.mp hc
    exact asciiLower_ascii d (hs d hd)
  have hlq : ∀ c ∈ q.toList.map asciiLower, c.toNat ≤ 127 := by
    intro c hc
    obtain ⟨d, hd, rfl⟩ := List.mem_map.mp hc
    exact asciiLower_ascii d (hq d hd)
  rw [contains_iff, toLower_ascii s hs, toLower_ascii q hq, utf8Bytes_ascii _ hls,
    utf8Bytes_ascii _ hlq, ascii_bytes_infix _ _ hlq hls, map_infix_iff]
  unfold ContainsIgnoringCase
  constructor
  · rintro ⟨-, -, h⟩
    exact h
  · rintro ⟨u, hu, he⟩
    refine ⟨?_, hne, u, hu, he⟩
    intro hse
    subst hse
    have hu0 : u = [] := by simpa using hu
    subst hu0
    have hq0 : q.toList = [] := by simpa using he.symm
    exact hne (String.ext hq0)

/-- The four file operations of one call, run without interruption, are `UpdateFeed`. -/
theorem UpdateFeed_steps_alone (s : Storage) (id : String) (updates : Updates) :
    (runTwoUpdates id updates id updates [true, true, true, true]
      (UpdateProgress.start, UpdateProgress.start, s)).2.2 = (s.UpdateFeed id updates).2 ∧
    (runTwoUpdates id updates id updates [true, true, true, true]
      (UpdateProgress.start, UpdateProgress.start, s)).1 = UpdateProgress.done := by
  simp only [runTwoUpdates, UpdateFeed.step, Storage.UpdateFeed, Storage.read]
  rcases Storage.UpdateFeed.loop id updates (s.mangaFile ++ s.animeFile) with ⟨r, feeds⟩
  rcases r with _ | u
  · simp [UpdateFeed.step]
  · simp [UpdateFeed.step, Storage.write]

/-! ## Identifiers -/

/-- C11 fails on the code. First: from the empty store, an import at clock
reading 1 gives its record the id `1` followed by the count `0`, and an add at
the later reading 10 gives its record the id `10` as well. Second: a store
whose only record has id `0`, and an add at reading 0. In both the readings
are strictly increasing and the ids were pairwise distinct before. -/
theorem C11_counterexample :
    StrictMono skewOracle.now ∧
    ClockAdvances skewOracle [StoreOp.importFeeds [sampleFeed], StoreOp.add sampleAnime]
      { mangaFile := [], animeFile := [] } 0 ∧
    (runOps skewOracle [StoreOp.importFeeds [sampleFeed], StoreOp.add sampleAnime]
      { mangaFile := [], animeFile := [] } 0).1.read.map (fun f => f.ID) = ["10", "10"] ∧
    ¬ ((runOps skewOracle [StoreOp.importFeeds [sampleFeed], StoreOp.add sampleAnime]
      { mangaFile := [], animeFile := [] } 0).1.read.map (fun f => f.ID)).Nodup ∧
    StrictMono sampleOracle.now ∧
    (({ mangaFile := [{ sampleFeed with ID := "0" }], animeFile := [] } : Storage).read.map
      (fun f => f.ID)).Nodup ∧
    ClockAdvances sampleOracle [StoreOp.add sampleAnime]
      { mangaFile := [{ sampleFeed with ID := "0" }], animeFile := [] } 0 ∧
    (runOps sampleOracle [StoreOp.add sampleAnime]
      { mangaFile := [{ sampleFeed with ID := "0" }], animeFile := [] } 0).1.read.map
        (fun f => f.ID) = ["0", "0"] := by
  refine ⟨?_, ?_, by decide, by decide, ?_, by decide, ?_, by decide⟩
  · apply strictMono_nat_of_lt_succ
    intro k
    show (if k < 2 then (k : Int) + 1 else (k : Int) + 8)
      < (if k + 1 < 2 then ((k + 1 : Nat) : Int) + 1 else ((k + 1 : Nat) : Int) + 8)
    split_ifs <;> push_cast <;> omega
  · refine ⟨fun j hj => absurd hj (Nat.not_lt_zero j), ?_, trivial⟩
    intro j hj
    have hj2 : j < 2 := hj
    show (if j < 2 then (j : Int) + 1 else (j : Int) + 8) < 10
    rw [if_pos hj2]
    omega
  · apply strictMono_nat_of_lt_succ
    intro k
    show (k : Int) < ((k + 1 : Nat) : Int)
    push_cast
    omega
  · exact ⟨fun j hj => absurd hj (Nat.not_lt_zero j), trivial⟩

/-- C11 as amended: let all clock readings have the same number of decimal
digits, let them be non-decreasing, and let every call start at a reading
later than all readings before it. From a store whose ids are pairwise
distinct and each carry a reading of that many digits earlier than the first
call (the numeral of the reading, or that numeral followed by the numeral of
a count), every sequence of `AddFeed` and `ImportFeeds` calls leaves all ids
pairwise distinct, those assigned within one import batch included. -/
theorem C11_ids_stay_distinct (o : Oracle) (digits : Nat) (ops : List StoreOp) (s : Storage)
    (clock : Nat)
    (hmono : Monotone o.now)
    (hdigits : ∀ k, (sprintfD (o.now k)).length = digits)
    (hadv : ClockAdvances o ops s clock)
    (hnodup : (s.read.map (fun f => f.ID)).Nodup)
    (hstamped : ∀ f ∈ s.read, ∃ t, t < o.now clock ∧ (sprintfD t).length = digits ∧
      StampedAt t f.ID) :
    ((runOps o ops s clock).1.read.map (fun f => f.ID)).Nodup := by
  refine (runOps_IdsStamped o digits hmono hdigits ops s clock hadv ⟨hnodup, ?_⟩).1
  intro f hf
  obtain ⟨t, hlt, ht, hst⟩ := hstamped f hf
  refine ⟨t, ht, hst, fun c' hc' hstart => ?_⟩
  rcases Nat.eq_or_lt_of_le hc' with h | h
  · rw [← h]; exact hlt
  · exact lt_trans hlt (hstart clock h)

/-- A store with one id of nineteen digits, an import of two records and an
add, at nineteen-digit readings: four distinct ids. -/
theorem C11_ids_stay_distinct_witness :
    ((runOps stampOracle
        [StoreOp.importFeeds
          [{ sampleFeed with RSSUrl := "https://example.org/a/rss" },
           { sampleFeed with RSSUrl := "https://example.org/b/rss" }],
         StoreOp.add sampleAnime]
        { mangaFile := [{ sampleFeed with ID := "1600000000000000000" }], animeFile := [] }
        0).1.read.map (fun f => f.ID)).Nodup := by
  have hval : ∀ k : Nat, (sprintfD (stampOracle.now k)).length = 19 := by
    intro k
    have hk : min k 5 ≤ 5 := Nat.min_le_right k 5
    show (sprintfD (1700000000000000000 + ((min k 5 : Nat) : Int))).length = 19
    generalize min k 5 = m at hk
    interval_cases m <;> decide
  have hmono : Monotone stampOracle.now := by
    intro a b hab
    show (1700000000000000000 : Int) + ((min a 5 : Nat) : Int)
      ≤ 1700000000000000000 + ((min b 5 : Nat) : Int)
    have : min a 5 ≤ min b 5 := min_le_min_right 5 hab
    omega
  apply C11_ids_stay_distinct stampOracle 19 _ _ 0 hmono hval
  · refine ⟨fun j hj => absurd hj (Nat.not_lt_zero j), ?_, trivial⟩
    intro j hj
    have hj4 : j < 4 := hj
    show (1700000000000000000 : Int) + ((min j 5 : Nat) : Int)
      < 1700000000000000000 + ((min 4 5 : Nat) : Int)
    have h1 : min j 5 = j := Nat.min_eq_left (by omega)
    rw [h1]
    have h2 : min 4 5 = 4 := rfl
    rw [h2]
    omega
  · decide
  · intro f hf
    have hf1 : f = { sampleFeed with ID := "1600000000000000000" } := by simpa [Storage.read] using hf
    subst hf1
    exact ⟨1600000000000000000, by decide, by decide, Or.inl (by decide)⟩

/-! ## Adding a record -/

/-- C12 fails on the code: a submitted record with an empty category, or with
a fail count other than zero, is not found in the list with those fields as
submitted. -/
theorem C12_counterexample :
    (¬ ∃ f ∈ (Storage.AddFeed sampleOracle { mangaFile := [], animeFile := [] } 0
        sampleAnime).2.1.GetFeeds, sameButStamp sampleAnime f) ∧
    (¬ ∃ f ∈ (Storage.AddFeed sampleOracle { mangaFile := [], animeFile := [] } 0
        sampleFeed).2.1.GetFeeds, sameButStamp sampleFeed f) := by
  constructor <;> decide

/-- C12 as amended: after `AddFeed` the list holds the record `AddFeed` returns,
which is the submitted record with a fresh id and time of creation, with
`FailCount` 0, and with the category `Uncategorized` if the submitted one was
empty; every other field is as submitted. The id is not empty, and neither is
the time of creation, given that the time format never yields the empty
string. -/
theorem C12_add_round_trip (o : Oracle) (s : Storage) (clock : Nat) (r : Feed)
    (hformat : ∀ t, o.formatRFC3339 t ≠ "") :
    (s.AddFeed o clock r).1 ∈ (s.AddFeed o clock r).2.1.GetFeeds ∧
    (s.AddFeed o clock r).1
      = { r with
          ID := sprintfD (o.now clock)
          AddedAt := o.formatRFC3339 (o.now (clock + 1))
          FailCount := 0
          Category := if r.Category = "" then "Uncategorized" else r.Category } ∧
    (s.AddFeed o clock r).1.ID ≠ "" ∧
    (s.AddFeed o clock r).1.AddedAt ≠ "" := by
  have hret : (s.AddFeed o clock r).1
      = { r with
          ID := sprintfD (o.now clock)
          AddedAt := o.formatRFC3339 (o.now (clock + 1))
          FailCount := 0
          Category := if r.Category = "" then "Uncategorized" else r.Category } := by
    unfold Storage.AddFeed
    dsimp only
    split_ifs <;> rfl
  have hstore : (s.AddFeed o clock r).2.1 = Storage.write (s.read ++ [(s.AddFeed o clock r).1]) := by
    unfold Storage.AddFeed
    rfl
  refine ⟨?_, hret, ?_, ?_⟩
  · rw [hstore]
    unfold Storage.GetFeeds
    exact (read_write_perm _).mem_iff.mpr (by simp)
  · rw [hret]
    exact sprintfD_ne_empty _
  · rw [hret]
    exact hformat _

/-- Adding the sample anime feed, whose category is empty. -/
theorem C12_add_round_trip_witness :
    (Storage.AddFeed sampleOracle sampleWorld.storage 0 sampleAnime).1
      = { sampleAnime with ID := "0", AddedAt := "1", FailCount := 0, Category := "Uncategorized" } ∧
    (Storage.AddFeed sampleOracle sampleWorld.storage 0 sampleAnime).1
      ∈ (Storage.AddFeed sampleOracle sampleWorld.storage 0 sampleAnime).2.1.GetFeeds :=
  have h := C12_add_round_trip sampleOracle sampleWorld.storage 0 sampleAnime
    (fun t => sprintfD_ne_empty t)
  ⟨h.2.1, h.1⟩

/-! ## Updating an unknown id -/

/-- C13: when no record of either file has the id, `UpdateFeed` returns the
error `feed not found` for every set of updates and the store is exactly as it
was; when some record has the id, `UpdateFeed` returns a feed, not that
error. -/
theorem C13_update_not_found (s : Storage) (id : String) (updates : Updates) :
    ((∀ f ∈ s.read, f.ID ≠ id) →
      s.UpdateFeed id updates = (Except.error "feed not found", s)) ∧
    ((∃ f ∈ s.read, f.ID = id) →
      ∃ updated, (s.UpdateFeed id updates).1 = Except.ok updated) := by
  constructor
  · intro h
    simp only [Storage.UpdateFeed, UpdateFeed_loop_absent id updates s.read h]
  · intro h
    obtain ⟨u, hu⟩ := UpdateFeed_loop_present id updates s.read h
    rcases hl : Storage.UpdateFeed.loop id updates s.read with ⟨r, feeds⟩
    rw [hl] at hu
    simp only at hu
    subst hu
    exact ⟨u, by simp only [Storage.UpdateFeed, hl]⟩

/-- No sample feed has id `3`. -/
theorem C13_update_not_found_witness :
    sampleWorld.storage.UpdateFeed "3" [("name", Value.string "x")]
      = (Except.error "feed not found", sampleWorld.storage) :=
  (C13_update_not_found sampleWorld.storage "3" [("name", Value.string "x")]).1 (by decide)

/-! ## Search -/

/-- C14 fails on the code: the empty query is a substring of every name, yet
`SearchFeeds` returns no record for it; the query `école` is not found in the
name `École des sorciers`; and the query made of the character NUL alone
finds the feed named `É`, of which it is no substring. -/
theorem C14_counterexample :
    sampleWorld.storage.GetFeeds.length = 2 ∧
    (∀ feed ∈ sampleWorld.storage.GetFeeds, "".toList <:+: feed.Name.toList) ∧
    sampleWorld.storage.SearchFeeds "" = [] ∧
    "école".toList <:+: "école des sorciers".toList ∧
    Storage.SearchFeeds { mangaFile := [{ sampleFeed with Name := "École des sorciers" }],
                          animeFile := [] } "école" = [] ∧
    ¬ (String.mk [Char.ofNat 0]).toList <:+: "É".toList ∧
    Storage.SearchFeeds
        { mangaFile := [{ sampleFeed with Name := "É", RSSUrl := "u", LastChapter := none }],
          animeFile := [] } (String.mk [Char.ofNat 0])
      = [{ sampleFeed with Name := "É", RSSUrl := "u", LastChapter := none }] := by
  refine ⟨by decide, by decide, by decide, by decide, by decide, by decide, by decide⟩

/-- C14 as amended: `SearchFeeds` returns records of `GetFeeds`, in that order,
selected one by one. For the empty query it returns none. For a non-empty
query of ASCII characters, a record whose name, source URL and marker are
made of ASCII characters is returned exactly when its name, its source URL or
its non-nil marker contains the query, the case of letters ignored (some run
of consecutive characters equals the query once the letters `A` to `Z` are
lower-cased on both sides). Nothing is stated about records or queries with
other characters. -/
theorem C14_search (s : Storage) (query : String) :
    ∃ keep : Feed → Bool,
      s.SearchFeeds query = s.GetFeeds.filter keep ∧
      (query = "" → s.SearchFeeds query = []) ∧
      (query ≠ "" → IsASCII query →
        ∀ feed : Feed, IsASCII feed.Name → IsASCII feed.RSSUrl →
          (∀ m, feed.LastChapter = some m → IsASCII m) →
          (keep feed = true ↔
            ContainsIgnoringCase asciiLower feed.Name query ∨
            ContainsIgnoringCase asciiLower feed.RSSUrl query ∨
            ∃ m, feed.LastChapter = some m ∧ ContainsIgnoringCase asciiLower m query)) := by
  refine ⟨fun feed =>
    contains feed.Name query ||
    contains feed.RSSUrl query ||
    (match feed.LastChapter with
     | some lastChapter => contains lastChapter query
     | none => false), rfl, ?_, ?_⟩
  · intro hq
    subst hq
    unfold Storage.SearchFeeds
    rw [List.filter_eq_nil_iff]
    intro feed _
    have hc : ∀ x : String, contains x "" = false := by
      intro x
      rw [← Bool.not_eq_true, contains_iff]
      rintro ⟨-, h, -⟩
      exact h rfl
    rcases feed.LastChapter with _ | m <;> simp [hc]
  · intro hne hq feed hname hurl hmark
    beta_reduce
    rcases hm : feed.LastChapter with _ | m
    · simp only [Bool.or_false, Bool.or_eq_true, contains_ascii _ _ hname hq hne,
        contains_ascii _ _ hurl hq hne]
      constructor
      · rintro (h | h)
        · exact Or.inl h
        · exact Or.inr (Or.inl h)
      · rintro (h | h | ⟨m, hm1, -⟩)
        · exact Or.inl h
        · exact Or.inr h
        · cases hm1
    · simp only [Bool.or_eq_true, contains_ascii _ _ hname hq hne,
        contains_ascii _ _ hurl hq hne, contains_ascii _ _ (hmark m hm) hq hne]
      constructor
      · rintro ((h | h) | h)
        · exact Or.inl h
        · exact Or.inr (Or.inl h)
        · exact Or.inr (Or.inr ⟨m, rfl, h⟩)
      · rintro (h | h | ⟨m1, hm1, h⟩)
        · exact Or.inl (Or.inl h)
        · exact Or.inl (Or.inr h)
        · cases hm1
          exact Or.inr h

/-- The query `BERSERK` finds the feed named `Berserk`. -/
theorem C14_search_witness : sampleFeed ∈ sampleWorld.storage.SearchFeeds "BERSERK" := by
  obtain ⟨keep, hfilter, -, hascii⟩ := C14_search sampleWorld.storage "BERSERK"
  rw [hfilter, List.mem_filter]
  refine ⟨by decide, (hascii (by decide) (by unfold IsASCII; decide) sampleFeed
    (by unfold IsASCII; decide) (by unfold IsASCII; decide) ?_).mpr
    (Or.inl ⟨"Berserk".toList, by decide, by decide⟩)⟩
  intro m hm
  have hm1 : m = "Chapter 1" := by
    have : some "Chapter 1" = some m := hm
    exact (Option.some.inj this).symm
  subst hm1
  unfold IsASCII
  decide

/-! ## Categories -/

/-- C15: whatever the order in which the keys of the category map come out,
`GetCategories` returns a list without duplicates whose members are exactly
the categories of the records of both files, the empty category read as
`Uncategorized`; it never contains the empty string. After `AddFeed` of a
record with empty category the stored category is `Uncategorized`, and
`GetCategories` contains `Uncategorized`. -/
theorem C15_categories (order : List String → List String) (s : Storage)
    (horder : ∀ keys, (order keys).Perm keys) :
    (s.GetCategories order).Nodup ∧
    (∀ c, c ∈ s.GetCategories order ↔
      ∃ f ∈ s.read, (if f.Category = "" then "Uncategorized" else f.Category) = c) ∧
    "" ∉ s.GetCategories order ∧
    (∀ (o : Oracle) (clock : Nat) (r : Feed), r.Category = "" →
      (s.AddFeed o clock r).1.Category = "Uncategorized" ∧
      "Uncategorized" ∈ (s.AddFeed o clock r).2.1.GetCategories order) := by
  have hmem : ∀ (s : Storage) (c : String), c ∈ s.GetCategories order ↔
      ∃ f ∈ s.read, (if f.Category = "" then "Uncategorized" else f.Category) = c := by
    intro s c
    unfold Storage.GetCategories
    rw [(horder _).mem_iff, (categoryMap_spec s.read [] List.nodup_nil).2 c]
    simp
  refine ⟨?_, hmem s, ?_, ?_⟩
  · unfold Storage.GetCategories
    exact (horder _).nodup_iff.mpr (categoryMap_spec s.read [] List.nodup_nil).1
  · intro h
    obtain ⟨f, -, hf⟩ := (hmem s "").mp h
    split_ifs at hf with hc
    · exact absurd hf (by decide)
    · exact hc hf
  · intro o clock r hr
    have hcat : (s.AddFeed o clock r).1.Category = "Uncategorized" := by
      unfold Storage.AddFeed
      simp [hr]
    have hstore : (s.AddFeed o clock r).2.1 = Storage.write (s.read ++ [(s.AddFeed o clock r).1]) := by
      unfold Storage.AddFeed
      rfl
    refine ⟨hcat, (hmem _ _).mpr ⟨(s.AddFeed o clock r).1, ?_, ?_⟩⟩
    · rw [hstore]
      exact (read_write_perm _).mem_iff.mpr (by simp)
    · rw [hcat]; rfl

/-- The sample store, whose anime feed has an empty category. -/
theorem C15_categories_witness :
    (sampleWorld.storage.GetCategories id).Nodup ∧
    "" ∉ sampleWorld.storage.GetCategories id ∧
    "Uncategorized" ∈ sampleWorld.storage.GetCategories id :=
  have h := C15_categories id sampleWorld.storage (fun keys => List.Perm.refl keys)
  ⟨h.1, h.2.2.1, (h.2.1 "Uncategorized").mpr ⟨sampleAnime, by decide, rfl⟩⟩

/-! ## Test of a feed -/

/-- C16: for every store, statistics, feed id and fetch result, `TestFeed`
leaves the store and the statistics as they were. It fails with
`feed not found` when no record has the id. When the source delivers no items,
or the filter of an anime feed matches none, it returns a result map holding
an error message, not an error, and no notification is dispatched or sent. -/
theorem C16_test_feed_mutates_nothing (o : Oracle) (n : Notifier) (feedID : String) (w : World) :
    (TestFeed o n feedID w).2.storage = w.storage ∧
    (TestFeed o n feedID w).2.stats = w.stats ∧
    ((∀ f ∈ w.storage.GetFeeds, f.ID ≠ feedID) →
      TestFeed o n feedID w = (Except.error "feed not found", w)) ∧
    (∀ feed, w.storage.GetFeeds.find? (fun f => f.ID == feedID) = some feed →
      (o.parseURL w.fetches feed.RSSUrl = Except.ok [] →
        (TestFeed o n feedID w).1
          = Except.ok [("error", Value.string "No items found in RSS feed")] ∧
        (TestFeed o n feedID w).2.calls = w.calls ∧
        (TestFeed o n feedID w).2.sent = w.sent) ∧
      (∀ first rest, o.parseURL w.fetches feed.RSSUrl = Except.ok (first :: rest) →
        TestFeed.latestItem o feed first rest = none →
        (TestFeed o n feedID w).1
          = Except.ok [("error", Value.string
              ("No matching items found for search: " ++ feed.SearchText.getD ""))] ∧
        (TestFeed o n feedID w).2.calls = w.calls ∧
        (TestFeed o n feedID w).2.sent = w.sent)) := by
  have hframe : (TestFeed o n feedID w).2.storage = w.storage ∧
      (TestFeed o n feedID w).2.stats = w.stats := by
    rcases hfind : w.storage.GetFeeds.find? (fun f => f.ID == feedID) with _ | feed
    · simp only [TestFeed, hfind]
      exact ⟨trivial, trivial⟩
    · rcases hf : o.parseURL w.fetches feed.RSSUrl with err | items
      · simp only [TestFeed, hfind, hf]
        exact ⟨trivial, trivial⟩
      · rcases items with _ | ⟨first, rest⟩
        · simp only [TestFeed, hfind, hf]
          exact ⟨trivial, trivial⟩
        · rcases hc : TestFeed.latestItem o feed first rest with _ | item
          · simp only [TestFeed, hfind, hf, hc]
            exact ⟨trivial, trivial⟩
          · obtain ⟨h1, h2, h3⟩ := SendTestNotification_effect n o feed.Name item.Title item.Link
              feed.Type_ feed.AnilistUrl { w with fetches := w.fetches + 1 }
            simp only [TestFeed, hfind, hf, hc]
            generalize n.SendTestNotification o feed.Name item.Title item.Link feed.Type_
              feed.AnilistUrl { w with fetches := w.fetches + 1 } = res at h1 h2 h3
            obtain ⟨e, w1⟩ := res
            simp only at h1 h2 h3
            subst h1
            exact ⟨h2, h3⟩
  refine ⟨hframe.1, hframe.2, ?_, ?_⟩
  · intro h
    have hfind : w.storage.GetFeeds.find? (fun f => f.ID == feedID) = none := by
      rw [List.find?_eq_none]
      intro x hx
      simpa using h x hx
    simp only [TestFeed, hfind]
  · intro feed hfind
    constructor
    · intro hf
      simp only [TestFeed, hfind, hf]
      exact ⟨trivial, trivial, trivial⟩
    · intro first rest hf hc
      simp only [TestFeed, hfind, hf, hc]
      exact ⟨trivial, trivial, trivial⟩

/-- The sample anime feed filters on `Zzz`, which matches nothing. -/
theorem C16_test_feed_mutates_nothing_witness :
    (TestFeed sampleOracle sampleNotifier "2" sampleWorld).1
      = Except.ok [("error", Value.string "No matching items found for search: Zzz")] ∧
    (TestFeed sampleOracle sampleNotifier "2" sampleWorld).2.calls = [] ∧
    (TestFeed sampleOracle sampleNotifier "2" sampleWorld).2.sent = [] :=
  ((C16_test_feed_mutates_nothing sampleOracle sampleNotifier "2" sampleWorld).2.2.2
    sampleAnime rfl).2 { Title := "Chapter 2", Link := "https://example.org/2", PublishedParsed := none }
    [] rfl rfl

/-! ## The batch -/

/-- C17: `CheckAll` runs to the end of the list whatever the outcome of the
single checks. The world it leaves is the one obtained by calling `CheckFeed`
with budget 3 on each listed feed once, in list order, each call followed by
the short sleep, starting from the world in which `LastCheckTime` has been
set. `TotalChecks` grows by the number of feeds, and so does the sum of
`SuccessfulChecks` and `FailedChecks`; `LastCheckTime` ends as the reading
taken before the first feed was checked. -/
theorem C17_check_all_visits_every_feed (o : Oracle) (n : Notifier) (w : World) :
    (CheckAll o n w).1 = false ∧
    (CheckAll o n w).2
      = w.storage.GetFeeds.foldl (fun acc feed =>
          { (CheckFeed o n feed 3 acc).2 with
            sleeps := (CheckFeed o n feed 3 acc).2.sleeps ++ [500 * 1000000] })
          { w with
            clock := w.clock + 2
            stats := { w.stats with
              LastCheckTime := some (o.formatRFC3339 (o.now (w.clock + 1))) } } ∧
    (CheckAll o n w).2.stats.TotalChecks = w.stats.TotalChecks + w.storage.GetFeeds.length ∧
    (CheckAll o n w).2.stats.SuccessfulChecks + (CheckAll o n w).2.stats.FailedChecks
      = w.stats.SuccessfulChecks + w.stats.FailedChecks + w.storage.GetFeeds.length ∧
    (CheckAll o n w).2.stats.LastCheckTime
      = some (o.formatRFC3339 (o.now (w.clock + 1))) := by
  obtain ⟨h1, h2, h3, h4, h5⟩ := CheckAll_loop_spec o n w.storage.GetFeeds
    { w with
      clock := w.clock + 2
      stats := { w.stats with LastCheckTime := some (o.formatRFC3339 (o.now (w.clock + 1))) } }
  exact ⟨h1, h2, h3, h4, h5⟩

/-! ## Backoff -/

/-- C18: for a budget of at least 1, if all attempts fail `CheckFeed` sleeps
1, 2, ..., `retries` - 1 seconds, one sleep after each attempt but the last,
`retries (retries - 1) / 2` seconds in all; if the first success is at
attempt `k` it sleeps 1, ..., `k` - 1 seconds, `k (k - 1) / 2` in all, and
not after the successful attempt. Sleeps are logged in nanoseconds. -/
theorem C18_linear_backoff (o : Oracle) (n : Notifier) (feed : Feed) (retries : Int) (w : World)
    (hn : 1 ≤ retries) :
    ((∀ i : Nat, (i : Int) < retries →
        attemptError (o.parseURL (w.fetches + i) feed.RSSUrl) ≠ none) →
      (CheckFeed o n feed retries w).2.sleeps
        = w.sleeps ++ (List.range (retries.toNat - 1)).map (fun i : Nat => (1 + (i : Int)) * 1000000000) ∧
      ((List.range (retries.toNat - 1)).map (fun i : Nat => (1 + (i : Int)) * 1000000000)).sum
        = retries * (retries - 1) / 2 * 1000000000) ∧
    (∀ k : Nat, 1 ≤ k → (k : Int) ≤ retries →
      (∀ i : Nat, i + 1 < k → attemptError (o.parseURL (w.fetches + i) feed.RSSUrl) ≠ none) →
      attemptError (o.parseURL (w.fetches + (k - 1)) feed.RSSUrl) = none →
      (CheckFeed o n feed retries w).2.sleeps
        = w.sleeps ++ (List.range (k - 1)).map (fun i : Nat => (1 + (i : Int)) * 1000000000) ∧
      ((List.range (k - 1)).map (fun i : Nat => (1 + (i : Int)) * 1000000000)).sum
        = (k : Int) * (k - 1) / 2 * 1000000000) := by
  have hsum : ∀ m : Nat, 1 ≤ m →
      ((List.range (m - 1)).map (fun i : Nat => (1 + (i : Int)) * 1000000000)).sum
        = (m : Int) * (m - 1) / 2 * 1000000000 := by
    intro m hm
    have h2 := waits_sum (m - 1)
    have hcast : ((m - 1 : Nat) : Int) = (m : Int) - 1 := by omega
    rw [hcast] at h2
    have heven : ∃ t : Int, (m : Int) * (m - 1) = 2 * t := by
      rcases Int.even_or_odd' (m : Int) with ⟨q, hq | hq⟩
      · exact ⟨q * (m - 1), by rw [hq]; ring⟩
      · exact ⟨m * q, by rw [show (m : Int) - 1 = 2 * q by omega]; ring⟩
    obtain ⟨t, ht⟩ := heven
    rw [ht, Int.mul_ediv_cancel_left t (by decide : (2 : Int) ≠ 0)]
    have h3 : 2 * ((List.range (m - 1)).map (fun i : Nat => (1 + (i : Int)) * 1000000000)).sum
        = 2 * (t * 1000000000) := by
      rw [h2, show ((m : Int) - 1) * (m - 1 + 1) = (m : Int) * (m - 1) by ring, ht]; ring
    omega
  constructor
  · intro hfail
    have hloop := CheckFeed_loop_sleeps_all_failed o n feed retries retries.toNat 1 none
      { w with stats := { w.stats with TotalChecks := w.stats.TotalChecks + 1 } }
      (by omega) (fun i hi => hfail i (by omega))
    have hk : retries.toNat ≠ 0 := by omega
    obtain ⟨sl, hall⟩ := CheckFeed_loop_all_failed o n feed retries retries.toNat 1 none
      { w with stats := { w.stats with TotalChecks := w.stats.TotalChecks + 1 } }
      (fun i hi => hfail i (by omega))
    rw [hall] at hloop
    simp only [hk, if_false] at hall
    obtain ⟨e, he⟩ := Option.ne_none_iff_exists'.mp
      (hfail (retries.toNat - 1) (by omega))
    rw [he] at hall
    refine ⟨?_, ?_⟩
    · simp only [CheckFeed, hall]
      exact hloop
    · have := hsum retries.toNat (by omega)
      rw [this, Int.toNat_of_nonneg (by omega)]
  · intro k hk hkn hfail hok
    have hsplit : retries.toNat = (k - 1) + (retries.toNat - k) + 1 := by omega
    have hloop := CheckFeed_loop_sleeps_success o n feed retries (retries.toNat - k) (k - 1) 1 none
      { w with stats := { w.stats with TotalChecks := w.stats.TotalChecks + 1 } }
      (by rw [← hsplit]; omega) (fun i hi => hfail i (by omega)) hok
    obtain ⟨sl, hret⟩ := CheckFeed_loop_succeeds o n feed retries (retries.toNat - k) (k - 1) 1 none
      { w with stats := { w.stats with TotalChecks := w.stats.TotalChecks + 1 } }
      (fun i hi => hfail i (by omega)) hok
    rw [← hsplit] at hloop hret
    refine ⟨?_, hsum k hk⟩
    rw [hret] at hloop
    simp only [CheckFeed, hret]
    exact hloop

/-- A source that is never reached, budget 3: sleeps of one and two seconds. -/
theorem C18_linear_backoff_witness :
    (CheckFeed downOracle sampleNotifier sampleFeed 3 sampleWorld).2.sleeps
      = [1000000000, 2000000000] :=
  ((C18_linear_backoff downOracle sampleNotifier sampleFeed 3 sampleWorld (by decide)).1
    (by intro i _; simp [downOracle, attemptError])).1

/-! ## Concurrent updates -/

/-- C19, evaluated where the code departs from it: two calls of `UpdateFeed` on
different ids run side by side. Both read the two files before either writes;
the first then writes, and the second writes back what it had read. The store
ends with the second update only: the renaming done by the first is lost, and
the result is that of neither sequential order. -/
theorem C19_lost_update :
    (runTwoUpdates "1" [("name", Value.string "Berserk Deluxe"), ("lastError", Value.string "boom")]
        "2" [("category", Value.string "Fantasy")]
        [true, true, false, false, true, true, false, false]
        (UpdateProgress.start, UpdateProgress.start, sampleWorld.storage))
      = (UpdateProgress.done, UpdateProgress.done,
          { mangaFile := [sampleFeed],
            animeFile := [{ sampleAnime with Category := "Fantasy" }] }) ∧
    ((sampleWorld.storage.UpdateFeed "1"
        [("name", Value.string "Berserk Deluxe"), ("lastError", Value.string "boom")]).2.UpdateFeed "2"
        [("category", Value.string "Fantasy")]).2
      = { mangaFile := [{ sampleFeed with Name := "Berserk Deluxe" }],
          animeFile := [{ sampleAnime with Category := "Fantasy" }] } ∧
    ((sampleWorld.storage.UpdateFeed "2" [("category", Value.string "Fantasy")]).2.UpdateFeed "1"
        [("name", Value.string "Berserk Deluxe"), ("lastError", Value.string "boom")]).2
      = { mangaFile := [{ sampleFeed with Name := "Berserk Deluxe" }],
          animeFile := [{ sampleAnime with Category := "Fantasy" }] } ∧
    ({ mangaFile := [sampleFeed], animeFile := [{ sampleAnime with Category := "Fantasy" }] } : Storage)
      ≠ { mangaFile := [{ sampleFeed with Name := "Berserk Deluxe" }],
          animeFile := [{ sampleAnime with Category := "Fantasy" }] } := by
  refine ⟨by decide, by decide, by decide, by decide⟩

/-! ## The last error -/

/-- C20: with a budget of at least 1, whenever the retry loop of `CheckFeed`
runs out the last error is set, and `CheckFeed` does not fail at run time.
With a budget of 0 or less the loop body never runs, the last error is nil,
and `CheckFeed` fails on `lastErr.Error()`, after `TotalChecks` and
`FailedChecks` have each been raised by one, with no fetch made and nothing
written to the store. -/
theorem C20_nil_last_error_iff_budget (o : Oracle) (n : Notifier) (feed : Feed) (retries : Int)
    (w : World) :
    (1 ≤ retries →
      (∀ last w1, CheckFeed.loop o n feed retries retries.toNat 1 none
          { w with stats := { w.stats with TotalChecks := w.stats.TotalChecks + 1 } }
            = (LoopExit.exhausted last, w1) → last ≠ none) ∧
      (CheckFeed o n feed retries w).1 ≠ CheckResult.nilDereference) ∧
    (retries ≤ 0 →
      CheckFeed.loop o n feed retries retries.toNat 1 none
          { w with stats := { w.stats with TotalChecks := w.stats.TotalChecks + 1 } }
        = (LoopExit.exhausted none,
            { w with stats := { w.stats with TotalChecks := w.stats.TotalChecks + 1 } }) ∧
      (CheckFeed o n feed retries w).1 = CheckResult.nilDereference ∧
      (CheckFeed o n feed retries w).2.fetches = w.fetches ∧
      (CheckFeed o n feed retries w).2.stats.TotalChecks = w.stats.TotalChecks + 1 ∧
      (CheckFeed o n feed retries w).2.stats.FailedChecks = w.stats.FailedChecks + 1 ∧
      (CheckFeed o n feed retries w).2.storage = w.storage) := by
  constructor
  · intro hn
    refine ⟨?_, (CheckFeed_counts o n feed retries w hn).1⟩
    intro last w1 hloop
    have hk : retries.toNat ≠ 0 := by omega
    obtain ⟨-, -, -, h4⟩ := CheckFeed_loop_stats o n feed retries retries.toNat 1 none
      { w with stats := { w.stats with TotalChecks := w.stats.TotalChecks + 1 } }
    rw [hloop] at h4
    rcases h4 with ⟨j1, -⟩ | ⟨last1, j1, j2, -, -⟩
    · simp at j1
    · have : last = last1 := by simpa using j1
      subst this
      exact j2 hk
  · intro hn
    have hk : retries.toNat = 0 := by omega
    have hloop : CheckFeed.loop o n feed retries retries.toNat 1 none
          { w with stats := { w.stats with TotalChecks := w.stats.TotalChecks + 1 } }
        = (LoopExit.exhausted none,
            { w with stats := { w.stats with TotalChecks := w.stats.TotalChecks + 1 } }) := by
      rw [hk]; rfl
    refine ⟨hloop, ?_⟩
    simp only [CheckFeed, hloop]
    exact ⟨trivial, trivial, trivial, trivial, trivial⟩

/-- Budget 0 on the sample feed. -/
theorem C20_nil_last_error_iff_budget_witness :
    (CheckFeed sampleOracle sampleNotifier sampleFeed 0 sampleWorld).1
      = CheckResult.nilDereference ∧
    (CheckFeed sampleOracle sampleNotifier sampleFeed 0 sampleWorld).2.storage
      = sampleWorld.storage :=
  have h := (C20_nil_last_error_iff_budget sampleOracle sampleNotifier sampleFeed 0
    sampleWorld).2 (by decide)
  ⟨h.2.1, h.2.2.2.2.2⟩

end Shinkan
